import Mathlib

/-
Verification of the ERP inventory core: a shallow embedding of the
stock-movement ledger, the stock level calculator, the BOM graph manager
and the movement operation handlers, translated from the TypeScript
handlers under src/server/src/handlers (and the getStockLevels
implementation), together with proofs of the specified properties.

Quantities are modelled as exact rationals (the spec's "exact decimal
arithmetic"); timestamps as natural numbers supplied by the caller
(the handlers call `new Date()` once per operation); database tables as
lists of records; SQL aggregate queries as list folds.
-/

deriving instance DecidableEq for Except

namespace Erp

/-- Row of the items table (db/schema.ts itemsTable); only the fields the
core reads are modelled. -/
structure Item where
  id : Nat
  name : String
  sku : String
  is_manufactured : Bool
  reorder_level : ℚ
  unit_of_measure : String
  deriving DecidableEq

/-- Row of the locations table (db/schema.ts locationsTable). -/
structure Location where
  id : Nat
  name : String
  deriving DecidableEq

/-- Row of the customers table (db/schema.ts customersTable). -/
structure Customer where
  id : Nat
  name : String
  deriving DecidableEq

/-- Row of the bill_of_materials table (db/schema.ts billOfMaterialsTable). -/
structure BomEdge where
  id : Nat
  parent_item_id : Nat
  component_item_id : Nat
  quantity : ℚ
  deriving DecidableEq

/-- The movement_type enum (db/schema.ts movementTypeEnum). -/
inductive MovementType
  | receipt
  | issue
  | adjustment
  | transferIn
  | transferOut
  | production
  | consumption
  deriving DecidableEq

/-- Row of the stock_movements table (db/schema.ts stockMovementsTable). -/
structure StockMovement where
  id : Nat
  item_id : Nat
  location_id : Nat
  movement_type : MovementType
  quantity : ℚ
  date : Nat
  reference : Option String
  deriving DecidableEq

/-- The persisted state: the tables the core reads and writes, plus the
serial id counters of the two tables the core inserts into. -/
structure DB where
  items : List Item
  locations : List Location
  customers : List Customer
  boms : List BomEdge
  movements : List StockMovement
  nextMovementId : Nat
  nextBomId : Nat
  deriving DecidableEq

/-- One deficient component of a production request, as collected in the
insufficientStock list of produce_item.ts (name, sku, required, available). -/
structure DeficientComponent where
  name : String
  sku : String
  required : ℚ
  available : ℚ
  deriving DecidableEq

/-- The errors thrown by the handlers, one constructor per distinct throw
site kind. -/
inductive Err
  | itemNotFound (id : Nat)
  | parentItemNotFound (id : Nat)
  | componentItemNotFound (id : Nat)
  | locationNotFound (id : Nat)
  | customerNotFound (id : Nat)
  | selfReference
  | circularDependency
  | duplicateEdge
  | bomNotFound (id : Nat)
  | updateCircular
  | itemsMissing
  | sameLocation
  | insufficientStock (available requested : ℚ)
  | notManufactured (name : String)
  | noBom (name : String)
  | insufficientComponentStock (deficient : List DeficientComponent)
  | itemReferencedByBom
  | itemReferencedByMovement
  | storageError
  deriving DecidableEq

/-- SELECT SUM(quantity) FROM stock_movements WHERE item_id = i AND
location_id = l, the aggregate every sufficiency check runs (COALESCE to 0
when no row matches). -/
def currentQuantity (movements : List StockMovement) (itemId locationId : Nat) : ℚ :=
  ((movements.filter (fun m => m.item_id == itemId && m.location_id == locationId)).map
    (fun m => m.quantity)).sum

/-- Lookup of an item row by id (SELECT FROM items WHERE id = ...). -/
def findItem (db : DB) (id : Nat) : Option Item :=
  db.items.find? (fun it => it.id == id)

/-- Lookup of a location row by id. -/
def findLocation (db : DB) (id : Nat) : Option Location :=
  db.locations.find? (fun l => l.id == id)

/-- JS truthiness of `input.customer_id` in issue_stock.ts: the customer
branch runs only for a present, non-zero id. -/
def customerGiven : Option Nat → Bool
  | some c => c != 0
  | none => false

/-- Reference-string composition of issue_stock.ts: appends
"Customer ID: <id>" to the caller reference when a customer is given. -/
def composeIssueReference (reference : Option String) (customerId : Option Nat) : Option String :=
  if customerGiven customerId then
    let customerRef := "Customer ID: " ++ toString (customerId.getD 0)
    match reference with
    | some r => some (r ++ " - " ++ customerRef)
    | none => some customerRef
  else reference

/-- Parsed IssueStockInput (schema.ts issueStockInputSchema). -/
structure IssueStockInput where
  item_id : Nat
  location_id : Nat
  quantity : ℚ
  customer_id : Option Nat
  reference : Option String
  deriving DecidableEq

/-- The Issue movement record built by issue_stock.ts. -/
def issueMovement (db : DB) (input : IssueStockInput) (now : Nat) : StockMovement :=
  { id := db.nextMovementId
    item_id := input.item_id
    location_id := input.location_id
    movement_type := .issue
    quantity := -input.quantity
    date := now
    reference := composeIssueReference input.reference input.customer_id }

/-- issue_stock.ts issueStock: validates item, location and (when given)
customer, checks sufficiency against the ledger sum, then appends one
Issue movement with negated quantity. -/
def issueStock (db : DB) (input : IssueStockInput) (now : Nat) :
    Except Err (DB × StockMovement) :=
  if (findItem db input.item_id).isNone then
    .error (.itemNotFound input.item_id)
  else if (findLocation db input.location_id).isNone then
    .error (.locationNotFound input.location_id)
  else if customerGiven input.customer_id &&
      (db.customers.find? (fun c => c.id == input.customer_id.getD 0)).isNone then
    .error (.customerNotFound (input.customer_id.getD 0))
  else
    let currentStock := currentQuantity db.movements input.item_id input.location_id
    if currentStock < input.quantity then
      .error (.insufficientStock currentStock input.quantity)
    else
      let movement := issueMovement db input now
      .ok ({ db with
              movements := db.movements ++ [movement]
              nextMovementId := db.nextMovementId + 1 }, movement)

/-- Parsed TransferStockInput (schema.ts transferStockInputSchema). -/
structure TransferStockInput where
  item_id : Nat
  from_location_id : Nat
  to_location_id : Nat
  quantity : ℚ
  reference : Option String
  deriving DecidableEq

/-- The Transfer Out movement built by transfer_stock.ts. -/
def transferOutMovement (db : DB) (input : TransferStockInput) (now : Nat) : StockMovement :=
  { id := db.nextMovementId
    item_id := input.item_id
    location_id := input.from_location_id
    movement_type := .transferOut
    quantity := -input.quantity
    date := now
    reference := input.reference }

/-- The Transfer In movement built by transfer_stock.ts. -/
def transferInMovement (db : DB) (input : TransferStockInput) (now : Nat) : StockMovement :=
  { id := db.nextMovementId + 1
    item_id := input.item_id
    location_id := input.to_location_id
    movement_type := .transferIn
    quantity := input.quantity
    date := now
    reference := input.reference }

/-- transfer_stock.ts transferStock: validates item and both locations,
rejects equal locations, checks sufficiency at the source, then appends
the Transfer Out and Transfer In movements (both stamped with the one
`currentDate` and the caller reference). -/
def transferStock (db : DB) (input : TransferStockInput) (now : Nat) :
    Except Err (DB × StockMovement × StockMovement) :=
  if (findItem db input.item_id).isNone then
    .error (.itemNotFound input.item_id)
  else if (findLocation db input.from_location_id).isNone then
    .error (.locationNotFound input.from_location_id)
  else if (findLocation db input.to_location_id).isNone then
    .error (.locationNotFound input.to_location_id)
  else if input.from_location_id == input.to_location_id then
    .error .sameLocation
  else
    let currentStock := currentQuantity db.movements input.item_id input.from_location_id
    if currentStock < input.quantity then
      .error (.insufficientStock currentStock input.quantity)
    else
      let out := transferOutMovement db input now
      let tin := transferInMovement db input now
      .ok ({ db with
              movements := db.movements ++ [out, tin]
              nextMovementId := db.nextMovementId + 2 }, out, tin)

/-- transfer_stock.ts with explicit append outcomes: the handler runs its
two INSERTs as independent statements (no db.transaction), so the state
after a failed second INSERT still holds the first movement. `ok1`/`ok2`
say whether the respective INSERT succeeds; the returned DB is the
committed state at the point of return. -/
def transferStockWithAppends (db : DB) (input : TransferStockInput) (now : Nat)
    (ok1 ok2 : Bool) : DB × Except Err (StockMovement × StockMovement) :=
  if (findItem db input.item_id).isNone then
    (db, .error (.itemNotFound input.item_id))
  else if (findLocation db input.from_location_id).isNone then
    (db, .error (.locationNotFound input.from_location_id))
  else if (findLocation db input.to_location_id).isNone then
    (db, .error (.locationNotFound input.to_location_id))
  else if input.from_location_id == input.to_location_id then
    (db, .error .sameLocation)
  else
    let currentStock := currentQuantity db.movements input.item_id input.from_location_id
    if currentStock < input.quantity then
      (db, .error (.insufficientStock currentStock input.quantity))
    else
      let out := transferOutMovement db input now
      if !ok1 then (db, .error .storageError)
      else
        let db1 : DB := { db with
          movements := db.movements ++ [out]
          nextMovementId := db.nextMovementId + 1 }
        let tin := transferInMovement db input now
        if !ok2 then (db1, .error .storageError)
        else
          (({ db1 with
              movements := db1.movements ++ [tin]
              nextMovementId := db1.nextMovementId + 1 } : DB), .ok (out, tin))

/-- Parsed CreateBillOfMaterialInput (schema.ts). -/
structure CreateBomInput where
  parent_item_id : Nat
  component_item_id : Nat
  quantity : ℚ
  deriving DecidableEq

/-- create_bill_of_material.ts createBillOfMaterial: validates both items,
rejects self-reference, rejects when a direct reverse edge
(component → parent) exists, rejects a duplicate (parent, component)
pair, then inserts the edge. -/
def createBillOfMaterial (db : DB) (input : CreateBomInput) : Except Err (DB × BomEdge) :=
  if (findItem db input.parent_item_id).isNone then
    .error (.parentItemNotFound input.parent_item_id)
  else if (findItem db input.component_item_id).isNone then
    .error (.componentItemNotFound input.component_item_id)
  else if input.parent_item_id == input.component_item_id then
    .error .selfReference
  else if !(db.boms.filter (fun b =>
      b.parent_item_id == input.component_item_id &&
      b.component_item_id == input.parent_item_id)).isEmpty then
    .error .circularDependency
  else if !(db.boms.filter (fun b =>
      b.parent_item_id == input.parent_item_id &&
      b.component_item_id == input.component_item_id)).isEmpty then
    .error .duplicateEdge
  else
    let edge : BomEdge :=
      { id := db.nextBomId
        parent_item_id := input.parent_item_id
        component_item_id := input.component_item_id
        quantity := input.quantity }
    .ok ({ db with boms := db.boms ++ [edge], nextBomId := db.nextBomId + 1 }, edge)

/-- The child edges a recursion step of checkCircularDependency walks:
edges whose parent is `componentId` (the SELECT), with the edge being
updated filtered out (the `relevantBoms` filter). -/
def relevantBoms (edges : List BomEdge) (componentId excludeBomId : Nat) : List BomEdge :=
  (edges.filter (fun b => b.parent_item_id == componentId)).filter
    (fun b => b.id != excludeBomId)

/-- The for-loop body of checkCircularDependency over the relevant child
edges: direct hit returns true, otherwise recurse into the child via
`recurse`, the search at the next depth. -/
def checkCircLoop (targetParentId : Nat) (recurse : Nat → Option Bool) :
    List BomEdge → Option Bool
  | [] => some false
  | bom :: rest =>
    if bom.component_item_id == targetParentId then some true
    else
      match recurse bom.component_item_id with
      | none => none
      | some true => some true
      | some false => checkCircLoop targetParentId recurse rest

/-- update_bill_of_material.ts checkCircularDependency: plain recursive
forward search from `componentId` for `targetParentId`, with NO visited
set; `fuel` bounds the recursion depth, and `none` means the recursion
has not returned within that depth. -/
def checkCircularDependency (edges : List BomEdge) (targetParentId excludeBomId : Nat) :
    Nat → Nat → Option Bool
  | 0, _ => none
  | fuel + 1, componentId =>
    checkCircLoop targetParentId
      (checkCircularDependency edges targetParentId excludeBomId fuel)
      (relevantBoms edges componentId excludeBomId)

/-- Parsed UpdateBillOfMaterialInput (schema.ts): optional fields apply
only when supplied. -/
structure UpdateBomInput where
  id : Nat
  parent_item_id : Option Nat
  component_item_id : Option Nat
  quantity : Option ℚ
  deriving DecidableEq

/-- The UPDATE ... SET of update_bill_of_material.ts: rewrites the row
with the given id to the final field values and returns the updated row. -/
def applyBomUpdate (db : DB) (id parentId componentId : Nat) (qty : ℚ)
    (currentBom : BomEdge) : DB × BomEdge :=
  let updated : BomEdge :=
    { currentBom with
        parent_item_id := parentId
        component_item_id := componentId
        quantity := qty }
  ({ db with boms := db.boms.map (fun b => if b.id == id then
      { b with parent_item_id := parentId, component_item_id := componentId,
               quantity := qty } else b) }, updated)

/-- The itemIds list update_bill_of_material.ts assembles for the
existence re-validation: the provided parent id and/or component id. -/
def updateItemIds (input : UpdateBomInput) : List Nat :=
  (match input.parent_item_id with | some p => [p] | none => []) ++
  (match input.component_item_id with | some c => [c] | none => [])

/-- update_bill_of_material.ts updateBillOfMaterial: loads the edge,
merges the supplied fields, and when parent or component change checks
self-reference and runs checkCircularDependency (excluding the edge
itself) and re-validates the changed items; then updates the row. The
outer `none` propagates non-termination of the cycle search. -/
def updateBillOfMaterial (db : DB) (input : UpdateBomInput) (fuel : Nat) :
    Option (Except Err (DB × BomEdge)) :=
  match db.boms.find? (fun b => b.id == input.id) with
  | none => some (.error (.bomNotFound input.id))
  | some currentBom =>
    let finalParentId := input.parent_item_id.getD currentBom.parent_item_id
    let finalComponentId := input.component_item_id.getD currentBom.component_item_id
    let finalQuantity := input.quantity.getD currentBom.quantity
    if input.parent_item_id.isSome || input.component_item_id.isSome then
      if finalParentId == finalComponentId then some (.error .selfReference)
      else
        match checkCircularDependency db.boms finalParentId input.id fuel
            finalComponentId with
        | none => none
        | some true => some (.error .updateCircular)
        | some false =>
          let itemIds := updateItemIds input
          let found := db.items.filter (fun it => itemIds.contains it.id)
          if found.length != itemIds.length then some (.error .itemsMissing)
          else some (.ok (applyBomUpdate db input.id finalParentId finalComponentId
            finalQuantity currentBom))
    else
      some (.ok (applyBomUpdate db input.id finalParentId finalComponentId
        finalQuantity currentBom))

/-- One row of the BOM-with-component-item join of produce_item.ts
(billOfMaterials INNER JOIN items ON component_item_id = items.id). -/
structure BomComponent where
  component_item_id : Nat
  quantity_per_unit : ℚ
  component_name : String
  component_sku : String
  deriving DecidableEq

/-- The bomComponents query of produce_item.ts: the direct component
edges of `itemId`, joined with the component item rows. -/
def bomComponentsFor (db : DB) (itemId : Nat) : List BomComponent :=
  db.boms.filterMap (fun b =>
    if b.parent_item_id == itemId then
      match findItem db b.component_item_id with
      | some it => some ⟨b.component_item_id, b.quantity, it.name, it.sku⟩
      | none => none
    else none)

/-- One entry of the requiredComponents list of produce_item.ts. -/
structure RequiredComponent where
  item_id : Nat
  name : String
  sku : String
  required_quantity : ℚ
  deriving DecidableEq

/-- requiredComponents of produce_item.ts: multiplier times produced
quantity, per direct component edge. -/
def requiredComponentsFor (comps : List BomComponent) (quantity : ℚ) :
    List RequiredComponent :=
  comps.map (fun c =>
    ⟨c.component_item_id, c.component_name, c.component_sku,
      c.quantity_per_unit * quantity⟩)

/-- One entry of the stockLevels list of produce_item.ts. -/
structure StockCheck where
  item_id : Nat
  current_quantity : ℚ
  deriving DecidableEq

/-- The stockLevels loop of produce_item.ts: the ledger sum per required
component at the production location. -/
def stockChecksFor (db : DB) (required : List RequiredComponent) (locationId : Nat) :
    List StockCheck :=
  required.map (fun r => ⟨r.item_id, currentQuantity db.movements r.item_id locationId⟩)

/-- The `stockLevels.find(...)` lookup of produce_item.ts: available
quantity for a component, 0 when no entry matches. -/
def availableFor (levels : List StockCheck) (itemId : Nat) : ℚ :=
  match levels.find? (fun s => s.item_id == itemId) with
  | some s => s.current_quantity
  | none => 0

/-- The insufficientStock collection loop of produce_item.ts: every
required component whose available quantity falls short, in order. -/
def deficientOf (required : List RequiredComponent) (levels : List StockCheck) :
    List DeficientComponent :=
  required.filterMap (fun r =>
    let available := availableFor levels r.item_id
    if available < r.required_quantity then
      some ⟨r.name, r.sku, r.required_quantity, available⟩
    else none)

/-- The consumption reference string of produce_item.ts. -/
def consumptionReference (itemName : String) : Option String → String
  | some r => "Production of " ++ itemName ++ " - " ++ r
  | none => "Production of " ++ itemName

/-- Parsed ProduceItemInput (schema.ts produceItemInputSchema). -/
structure ProduceItemInput where
  item_id : Nat
  location_id : Nat
  quantity : ℚ
  reference : Option String
  deriving DecidableEq

/-- The Production movement record built by produce_item.ts. -/
def productionMovement (db : DB) (input : ProduceItemInput) (now : Nat) : StockMovement :=
  { id := db.nextMovementId
    item_id := input.item_id
    location_id := input.location_id
    movement_type := .production
    quantity := input.quantity
    date := now
    reference := input.reference }

/-- The Consumption movement records built by the loop of
produce_item.ts, one per required component, with sequentially assigned
ids. -/
def consumptionMovements (db : DB) (input : ProduceItemInput) (now : Nat)
    (itemName : String) (required : List RequiredComponent) : List StockMovement :=
  required.enum.map (fun p =>
    { id := db.nextMovementId + 1 + p.1
      item_id := p.2.item_id
      location_id := input.location_id
      movement_type := .consumption
      quantity := -p.2.required_quantity
      date := now
      reference := some (consumptionReference itemName input.reference) })

/-- produce_item.ts produceItem: validates the item exists and is
manufactured, loads the direct BOM components (NoBomError when none),
checks every component's stock at the location collecting ALL deficient
components, then appends one Production movement and one Consumption
movement per component (all stamped with one date). -/
def produceItem (db : DB) (input : ProduceItemInput) (now : Nat) :
    Except Err (DB × List StockMovement) :=
  match findItem db input.item_id with
  | none => .error (.itemNotFound input.item_id)
  | some item =>
    if !item.is_manufactured then .error (.notManufactured item.name)
    else
      let comps := bomComponentsFor db input.item_id
      if comps.isEmpty then .error (.noBom item.name)
      else
        let required := requiredComponentsFor comps input.quantity
        let levels := stockChecksFor db required input.location_id
        let deficient := deficientOf required levels
        if !deficient.isEmpty then .error (.insufficientComponentStock deficient)
        else
          let production := productionMovement db input now
          let consumptions := consumptionMovements db input now item.name required
          .ok ({ db with
                  movements := db.movements ++ production :: consumptions
                  nextMovementId := db.nextMovementId + 1 + required.length },
               production :: consumptions)

/-- delete_item.ts deleteItem: refuses while any BOM edge (as parent or
component) or any stock movement references the item; otherwise removes
the item row. -/
def deleteItem (db : DB) (id : Nat) : Except Err DB :=
  if (findItem db id).isNone then .error (.itemNotFound id)
  else if !(db.boms.filter (fun b =>
      b.parent_item_id == id || b.component_item_id == id)).isEmpty then
    .error .itemReferencedByBom
  else if !(db.movements.filter (fun m => m.item_id == id)).isEmpty then
    .error .itemReferencedByMovement
  else .ok { db with items := db.items.filter (fun it => it.id != id) }

/-- Derived StockLevel row (schema.ts stockLevelSchema). -/
structure StockLevel where
  item_id : Nat
  item_name : String
  item_sku : String
  location_id : Nat
  location_name : String
  current_quantity : ℚ
  reorder_level : ℚ
  unit_of_measure : String
  deriving DecidableEq

/-- One joined row of getStockLevels: a movement paired with its item
and location rows, none when either inner join finds no row. -/
def joinRow (db : DB) (m : StockMovement) : Option (StockMovement × Item × Location) :=
  match findItem db m.item_id, findLocation db m.location_id with
  | some it, some lo => some (m, it, lo)
  | _, _ => none

/-- The FROM stock_movements INNER JOIN items INNER JOIN locations of
getStockLevels: each movement paired with its item and location rows
(movements without a matching row drop out of the inner join). -/
def joinedMovementRows (db : DB) : List (StockMovement × Item × Location) :=
  db.movements.filterMap (joinRow db)

/-- The optional WHERE conditions of getStockLevels (eq on items.id and
locations.id). -/
def rowMatchesFilters (itemFilter locationFilter : Option Nat)
    (row : StockMovement × Item × Location) : Bool :=
  (match itemFilter with | some i => row.2.1.id == i | none => true) &&
  (match locationFilter with | some l => row.2.2.id == l | none => true)

/-- One emitted StockLevel row of getStockLevels: display fields from
the group's item and location rows, current_quantity as the SUM over the
group. -/
def stockLevelRow (rows : List (StockMovement × Item × Location)) (k : Nat × Nat)
    (r0 : StockMovement × Item × Location) : StockLevel :=
  { item_id := r0.2.1.id
    item_name := r0.2.1.name
    item_sku := r0.2.1.sku
    location_id := r0.2.2.id
    location_name := r0.2.2.name
    current_quantity :=
      ((rows.filter (fun r => r.2.1.id == k.1 && r.2.2.id == k.2)).map
        (fun r => r.1.quantity)).sum
    reorder_level := r0.2.1.reorder_level
    unit_of_measure := r0.2.1.unit_of_measure }

/-- getStockLevels (the implemented handler): filters the joined
movement rows, groups them by (item id, location id), and emits one row
per group with the summed quantity and the item's reorder level. -/
def getStockLevels (db : DB) (itemFilter locationFilter : Option Nat) : List StockLevel :=
  let rows := (joinedMovementRows db).filter (rowMatchesFilters itemFilter locationFilter)
  let keys := (rows.map (fun r => (r.2.1.id, r.2.2.id))).dedup
  keys.filterMap (fun k =>
    (rows.find? (fun r => r.2.1.id == k.1 && r.2.2.id == k.2)).map (stockLevelRow rows k))

/-- The below-reorder indicator the client derives from a StockLevel row
(StockReporting.tsx: `level.current_quantity <= level.reorder_level`). -/
def belowReorderLevel (level : StockLevel) : Bool :=
  decide (level.current_quantity ≤ level.reorder_level)

/-- Modelled from the spec: the forward component edges of a node
("this item is a parent of X"). Spec-side notion, used only to compare
the handlers' checks with the spec's reachability. -/
def specSuccessors (edges : List BomEdge) (n : Nat) : List Nat :=
  (edges.filter (fun e => e.parent_item_id == n)).map (fun e => e.component_item_id)

/-- Modelled from the spec: a path of at most `k` component edges from
`a` to `b` exists through the edge set. -/
def specReachableInSteps (edges : List BomEdge) : Nat → Nat → Nat → Bool
  | 0, a, b => a == b
  | k + 1, a, b =>
    a == b || (specSuccessors edges a).any (fun c => specReachableInSteps edges k c b)

/-- Modelled from the spec: the edge set contains a cycle, i.e. some edge
closes a path from its component back to its parent. -/
def specHasCycle (edges : List BomEdge) : Bool :=
  edges.any (fun e =>
    specReachableInSteps edges edges.length e.component_item_id e.parent_item_id)

/-- A chain of component edges from `c` to `d`, recorded as the list of
edges walked, each taken from `es` and distinct from the excluded edge id
(exactly the edges a checkCircularDependency recursion step follows). -/
inductive EdgeChain (es : List BomEdge) (exclude : Nat) : Nat → List BomEdge → Nat → Prop
  | nil (c : Nat) : EdgeChain es exclude c [] c
  | cons {e : BomEdge} {l : List BomEdge} {d : Nat} :
      e ∈ es → e.id ≠ exclude →
      EdgeChain es exclude e.component_item_id l d →
      EdgeChain es exclude e.parent_item_id (e :: l) d

/-- The edge set (with the excluded edge removed from consideration) has
no nonempty chain from any node back to itself. -/
def AcyclicExcluding (es : List BomEdge) (exclude : Nat) : Prop :=
  ∀ c l, EdgeChain es exclude c l c → l = []

/-- Referential integrity of the modelled state: item ids are unique
(serial primary key), and every stock movement and every BOM edge
endpoint refers to an existing item row. -/
def Integrity (db : DB) : Prop :=
  (db.items.map (fun it => it.id)).Nodup ∧
  (∀ m ∈ db.movements, ∃ it ∈ db.items, it.id = m.item_id) ∧
  (∀ e ∈ db.boms, (∃ it ∈ db.items, it.id = e.parent_item_id) ∧
    (∃ it ∈ db.items, it.id = e.component_item_id))

/-- The mutating core operations, as invoked through the handlers. -/
inductive Op
  | createBom (input : CreateBomInput)
  | updateBom (input : UpdateBomInput) (fuel : Nat)
  | issue (input : IssueStockInput) (now : Nat)
  | transfer (input : TransferStockInput) (now : Nat)
  | produce (input : ProduceItemInput) (now : Nat)
  | deleteIt (id : Nat)

/-- The state resulting from one operation: the handler's new state on
success, the unchanged state on a rejected (or non-terminating) call. -/
def applyOp (db : DB) : Op → DB
  | .createBom input =>
    match createBillOfMaterial db input with
    | .ok (db2, _) => db2
    | .error _ => db
  | .updateBom input fuel =>
    match updateBillOfMaterial db input fuel with
    | some (.ok (db2, _)) => db2
    | _ => db
  | .issue input now =>
    match issueStock db input now with
    | .ok (db2, _) => db2
    | .error _ => db
  | .transfer input now =>
    match transferStock db input now with
    | .ok (db2, _, _) => db2
    | .error _ => db
  | .produce input now =>
    match produceItem db input now with
    | .ok (db2, _) => db2
    | .error _ => db
  | .deleteIt id =>
    match deleteItem db id with
    | .ok db2 => db2
    | .error _ => db

/-! Shared lemmas about the ledger aggregate and the lookup helpers. -/

theorem currentQuantity_append (ms1 ms2 : List StockMovement) (i l : Nat) :
    currentQuantity (ms1 ++ ms2) i l = currentQuantity ms1 i l + currentQuantity ms2 i l := by
  simp [currentQuantity, List.filter_append]

theorem currentQuantity_single (m : StockMovement) (i l : Nat) :
    currentQuantity [m] i l = if m.item_id = i ∧ m.location_id = l then m.quantity else 0 := by
  by_cases h1 : m.item_id = i
  · by_cases h2 : m.location_id = l
    · simp [currentQuantity, h1, h2]
    · simp [currentQuantity, h1, h2]
  · simp [currentQuantity, h1]

theorem currentQuantity_append_two (ms : List StockMovement) (a b : StockMovement)
    (i l : Nat) :
    currentQuantity (ms ++ [a, b]) i l =
      currentQuantity ms i l + currentQuantity [a] i l + currentQuantity [b] i l := by
  rw [show ms ++ [a, b] = (ms ++ [a]) ++ [b] by simp, currentQuantity_append,
    currentQuantity_append]

theorem findItem_isSome_iff (db : DB) (i : Nat) :
    (findItem db i).isSome ↔ ∃ it ∈ db.items, it.id = i := by
  simp [findItem, List.find?_isSome]

theorem findItem_eq_some (db : DB) (i : Nat) (it : Item) (h : findItem db i = some it) :
    it ∈ db.items ∧ it.id = i := by
  refine ⟨List.mem_of_find?_eq_some h, ?_⟩
  have := List.find?_some h
  simpa using this

theorem findLocation_isSome_iff (db : DB) (l : Nat) :
    (findLocation db l).isSome ↔ ∃ lo ∈ db.locations, lo.id = l := by
  simp [findLocation, List.find?_isSome]

theorem findLocation_eq_some (db : DB) (l : Nat) (lo : Location)
    (h : findLocation db l = some lo) : lo ∈ db.locations ∧ lo.id = l := by
  refine ⟨List.mem_of_find?_eq_some h, ?_⟩
  have := List.find?_some h
  simpa using this

/-! C4: the issue guard. -/

/-- Counterexample state for C4: item 1 and location 2 exist, no customer
row exists, the ledger is empty. -/
def issueCxDb : DB :=
  ⟨[⟨1, "A", "SKA", false, 10, "ea"⟩], [⟨2, "X"⟩], [], [], [], 1, 1⟩

/-- C4: the claim quantifies over every issue request with existing item
and location and demands an InsufficientStock failure whenever the current
quantity is short; but a request that also carries a customer id with no
matching customer row fails with the customer NotFound error instead
(issue_stock.ts checks the customer before computing the stock), so the
claim as stated is false at this input. -/
theorem C4_counterexample :
    currentQuantity issueCxDb.movements 1 2 < 3 ∧
    issueStock issueCxDb ⟨1, 2, 3, some 77, none⟩ 0 = .error (.customerNotFound 77) ∧
    Err.customerNotFound 77 ≠
      Err.insufficientStock (currentQuantity issueCxDb.movements 1 2) 3 := by
  refine ⟨?_, by decide, by decide⟩
  simp [issueCxDb, currentQuantity]

/-- C4 (amended): for every ledger state and every issue request whose
item and location exist and whose customer reference, when given, also
exists: a short current quantity yields InsufficientStock reporting
available vs. requested and leaves the state unchanged; otherwise exactly
one Issue movement with quantity −quantity is appended. -/
theorem C4_issue_guard (db : DB) (input : IssueStockInput) (now : Nat)
    (hi : (findItem db input.item_id).isSome)
    (hl : (findLocation db input.location_id).isSome)
    (hc : customerGiven input.customer_id = true →
      (db.customers.find? (fun c => c.id == input.customer_id.getD 0)).isSome) :
    (currentQuantity db.movements input.item_id input.location_id < input.quantity →
      issueStock db input now =
        .error (.insufficientStock
          (currentQuantity db.movements input.item_id input.location_id) input.quantity) ∧
      applyOp db (.issue input now) = db) ∧
    (input.quantity ≤ currentQuantity db.movements input.item_id input.location_id →
      ∃ db2 m, issueStock db input now = .ok (db2, m) ∧
        db2.movements = db.movements ++ [m] ∧
        m.movement_type = .issue ∧ m.quantity = -input.quantity ∧
        m.item_id = input.item_id ∧ m.location_id = input.location_id ∧
        db2.items = db.items ∧ db2.boms = db.boms) := by
  obtain ⟨it, hit⟩ := Option.isSome_iff_exists.mp hi
  obtain ⟨lo, hlo⟩ := Option.isSome_iff_exists.mp hl
  have hcust : (customerGiven input.customer_id &&
      (db.customers.find? (fun c => c.id == input.customer_id.getD 0)).isNone) = false := by
    cases hcg : customerGiven input.customer_id with
    | false => simp
    | true =>
      have hsome := hc hcg
      cases ho : db.customers.find? (fun c => c.id == input.customer_id.getD 0) with
      | none => rw [ho] at hsome; simp at hsome
      | some c => simp [ho]
  constructor
  · intro hlt
    constructor
    · simp [issueStock, hit, hlo, hcust, hlt]
    · simp [applyOp, issueStock, hit, hlo, hcust, hlt]
  · intro hge
    have hnlt : ¬ currentQuantity db.movements input.item_id input.location_id <
        input.quantity := not_lt.mpr hge
    refine ⟨{ db with
        movements := db.movements ++ [issueMovement db input now]
        nextMovementId := db.nextMovementId + 1 },
      issueMovement db input now, ?_, rfl, rfl, rfl, rfl, rfl, rfl, rfl⟩
    simp [issueStock, hit, hlo, hcust, hnlt]

/-- Witness state for the amended C4: item 1 and location 2 exist, no
customer is referenced, the ledger is empty. -/
def issueWDb : DB :=
  ⟨[⟨1, "A", "SKA", false, 10, "ea"⟩], [⟨2, "X"⟩], [], [], [], 1, 1⟩

theorem C4_issue_guard_witness :
    issueStock issueWDb ⟨1, 2, 3, none, none⟩ 0 = .error (.insufficientStock 0 3) := by
  have h := (C4_issue_guard issueWDb ⟨1, 2, 3, none, none⟩ 0 (by decide) (by decide)
    (by decide)).1
  have hc : currentQuantity issueWDb.movements 1 2 = 0 := by
    simp [issueWDb, currentQuantity]
  have := (h (by rw [hc]; norm_num)).1
  rwa [hc] at this

/-! C5: transfer balance. -/

/-- C5: a successful transfer moves exactly the requested quantity from
the source to the destination; the two movements carry opposite-signed
equal-magnitude quantities, the same event date and the same reference. -/
theorem C5_transfer_balance (db : DB) (input : TransferStockInput) (now : Nat)
    (hq : 0 < input.quantity)
    (hi : (findItem db input.item_id).isSome)
    (hf : (findLocation db input.from_location_id).isSome)
    (ht : (findLocation db input.to_location_id).isSome)
    (hne : input.from_location_id ≠ input.to_location_id)
    (hs : input.quantity ≤ currentQuantity db.movements input.item_id input.from_location_id) :
    ∃ db2 out tin, transferStock db input now = .ok (db2, out, tin) ∧
      currentQuantity db2.movements input.item_id input.from_location_id =
        currentQuantity db.movements input.item_id input.from_location_id - input.quantity ∧
      currentQuantity db2.movements input.item_id input.to_location_id =
        currentQuantity db.movements input.item_id input.to_location_id + input.quantity ∧
      out.quantity = -input.quantity ∧ tin.quantity = input.quantity ∧
      out.quantity = -tin.quantity ∧ out.date = tin.date ∧
      out.reference = input.reference ∧ tin.reference = input.reference ∧
      out.movement_type = .transferOut ∧ tin.movement_type = .transferIn ∧
      out.item_id = input.item_id ∧ tin.item_id = input.item_id ∧
      out.location_id = input.from_location_id ∧ tin.location_id = input.to_location_id ∧
      db2.movements = db.movements ++ [out, tin] := by
  obtain ⟨it, hit⟩ := Option.isSome_iff_exists.mp hi
  obtain ⟨lo1, hlo1⟩ := Option.isSome_iff_exists.mp hf
  obtain ⟨lo2, hlo2⟩ := Option.isSome_iff_exists.mp ht
  have hnlt : ¬ currentQuantity db.movements input.item_id input.from_location_id <
      input.quantity := not_lt.mpr hs
  have heqloc : (input.from_location_id == input.to_location_id) = false := by
    simpa using hne
  refine ⟨{ db with
      movements := db.movements ++ [transferOutMovement db input now,
        transferInMovement db input now]
      nextMovementId := db.nextMovementId + 2 },
    transferOutMovement db input now, transferInMovement db input now,
    ?_, ?_, ?_, rfl, rfl, rfl, rfl, rfl, rfl, rfl, rfl, rfl, rfl, rfl, rfl, rfl⟩
  · simp [transferStock, hit, hlo1, hlo2, heqloc, hnlt]
  · have hcond2 : ¬ ((transferInMovement db input now).item_id = input.item_id ∧
        (transferInMovement db input now).location_id = input.from_location_id) := by
      intro hco
      exact (Ne.symm hne) hco.2
    show currentQuantity (db.movements ++ [transferOutMovement db input now,
      transferInMovement db input now]) input.item_id input.from_location_id = _
    rw [currentQuantity_append_two, currentQuantity_single, currentQuantity_single,
      if_pos ⟨rfl, rfl⟩, if_neg hcond2]
    show currentQuantity db.movements input.item_id input.from_location_id +
      -input.quantity + 0 = _
    ring
  · have hcond1 : ¬ ((transferOutMovement db input now).item_id = input.item_id ∧
        (transferOutMovement db input now).location_id = input.to_location_id) := by
      intro hco
      exact hne hco.2
    show currentQuantity (db.movements ++ [transferOutMovement db input now,
      transferInMovement db input now]) input.item_id input.to_location_id = _
    rw [currentQuantity_append_two, currentQuantity_single, currentQuantity_single,
      if_neg hcond1, if_pos ⟨rfl, rfl⟩]
    show currentQuantity db.movements input.item_id input.to_location_id +
      0 + input.quantity = _
    ring

/-- Witness state for C5: item 1 at location 1 holds 100 units. -/
def transferWDb : DB :=
  ⟨[⟨1, "A", "SKA", false, 10, "ea"⟩], [⟨1, "L1"⟩, ⟨2, "L2"⟩], [], [],
    [⟨1, 1, 1, .receipt, 100, 0, none⟩], 2, 1⟩

theorem C5_transfer_balance_witness :
    ∃ db2 out tin, transferStock transferWDb ⟨1, 1, 2, 20, some "t"⟩ 7 = .ok (db2, out, tin) ∧
      currentQuantity db2.movements 1 1 = currentQuantity transferWDb.movements 1 1 - 20 ∧
      currentQuantity db2.movements 1 2 = currentQuantity transferWDb.movements 1 2 + 20 ∧
      out.quantity = -20 ∧ tin.quantity = 20 ∧ out.date = tin.date ∧
      out.reference = tin.reference := by
  have hs : (20 : ℚ) ≤ currentQuantity transferWDb.movements 1 1 := by
    norm_num [transferWDb, currentQuantity]
  obtain ⟨db2, out, tin, h1, h2, h3, h4, h5, _, h7, h8, h9, _⟩ :=
    C5_transfer_balance transferWDb ⟨1, 1, 2, 20, some "t"⟩ 7 (by norm_num) (by decide)
      (by decide) (by decide) (by decide) hs
  exact ⟨db2, out, tin, h1, h2, h3, h4, h5, h7, by rw [h8, h9]⟩

/-! C2: multi-movement operations are not atomic. -/

/-- State for C2: item 1 holds 100 units at location 1. -/
def transferCxDb : DB :=
  ⟨[⟨1, "A", "SKA", false, 10, "ea"⟩], [⟨1, "L1"⟩, ⟨2, "L2"⟩], [], [],
    [⟨1, 1, 1, .receipt, 100, 0, none⟩], 2, 1⟩

/-- C2: transfer_stock.ts runs its two INSERTs outside any transaction,
so when the second INSERT fails the operation reports an error while the
Transfer Out movement alone stays committed: the source quantity has
already dropped by the transferred amount with no matching Transfer In —
a visible partial effect, contradicting the claimed atomicity. -/
theorem C2_transfer_not_atomic :
    (transferStockWithAppends transferCxDb ⟨1, 1, 2, 20, some "t"⟩ 7 true false).2 =
      .error .storageError ∧
    (transferStockWithAppends transferCxDb ⟨1, 1, 2, 20, some "t"⟩ 7 true false).1.movements =
      transferCxDb.movements ++ [transferOutMovement transferCxDb ⟨1, 1, 2, 20, some "t"⟩ 7] ∧
    currentQuantity
      (transferStockWithAppends transferCxDb ⟨1, 1, 2, 20, some "t"⟩ 7 true false).1.movements
      1 1 = currentQuantity transferCxDb.movements 1 1 - 20 ∧
    currentQuantity
      (transferStockWithAppends transferCxDb ⟨1, 1, 2, 20, some "t"⟩ 7 true false).1.movements
      1 2 = currentQuantity transferCxDb.movements 1 2 := by
  norm_num [transferStockWithAppends, findItem, findLocation, currentQuantity,
    transferOutMovement, transferCxDb]

/-! C1 and C3: the BOM creation and update guards. -/

theorem filter_isEmpty_false_of_mem {α : Type} (l : List α) (p : α → Bool) (a : α)
    (ha : a ∈ l) (hp : p a = true) : (l.filter p).isEmpty = false := by
  have hmem : a ∈ l.filter p := List.mem_filter.mpr ⟨ha, hp⟩
  cases hl : l.filter p with
  | nil => rw [hl] at hmem; simp at hmem
  | cons b bs => simp [hl]

theorem filter_isEmpty_true_of_none {α : Type} (l : List α) (p : α → Bool)
    (h : ∀ a ∈ l, p a = false) : (l.filter p).isEmpty = true := by
  have : l.filter p = [] := List.filter_eq_nil.mpr (fun a ha => by simp [h a ha])
  simp [this]

/-- Counterexample state for C1: the edge set holds the chain 1 → 2 → 3
(item 1 is built from 2, item 2 is built from 3). -/
def bomCxDb : DB :=
  ⟨[⟨1, "A", "SKA", false, 0, "ea"⟩, ⟨2, "B", "SKB", false, 0, "ea"⟩,
    ⟨3, "C", "SKC", false, 0, "ea"⟩], [], [], [⟨1, 1, 2, 1⟩, ⟨2, 2, 3, 1⟩], [], 1, 3⟩

/-- C1: with edges 1 → 2 → 3 in place, the existing edges contain a
transitive path from component 1 to parent 3, so the claim demands that
creating edge (3, 1) fail with CircularDependencyError; but
create_bill_of_material.ts only looks for a direct reverse edge (1, 3),
accepts the request, and the stored edge set now contains the cycle
1 → 2 → 3 → 1. -/
theorem C1_counterexample :
    specReachableInSteps bomCxDb.boms bomCxDb.boms.length 1 3 = true ∧
    createBillOfMaterial bomCxDb ⟨3, 1, 1⟩ =
      .ok ({ bomCxDb with boms := bomCxDb.boms ++ [⟨3, 3, 1, 1⟩], nextBomId := 4 },
        ⟨3, 3, 1, 1⟩) ∧
    specHasCycle (bomCxDb.boms ++ [⟨3, 3, 1, 1⟩]) = true := by
  refine ⟨by decide, by decide, by decide⟩

/-- C1 (amended): createBomEdge's circular-dependency rejection checks
only for a DIRECT reverse edge (component, parent): when one exists the
call fails with CircularDependencyError leaving the edge set unchanged,
and when none exists (and the pair is no duplicate) the edge is inserted
— longer transitive paths from component to parent are not examined. -/
theorem C1_create_cycle_check (db : DB) (input : CreateBomInput)
    (hp : (findItem db input.parent_item_id).isSome)
    (hc : (findItem db input.component_item_id).isSome)
    (hne : input.parent_item_id ≠ input.component_item_id) :
    ((∃ e ∈ db.boms, e.parent_item_id = input.component_item_id ∧
        e.component_item_id = input.parent_item_id) →
      createBillOfMaterial db input = .error .circularDependency ∧
      applyOp db (.createBom input) = db) ∧
    ((¬ ∃ e ∈ db.boms, e.parent_item_id = input.component_item_id ∧
        e.component_item_id = input.parent_item_id) →
      (¬ ∃ e ∈ db.boms, e.parent_item_id = input.parent_item_id ∧
        e.component_item_id = input.component_item_id) →
      createBillOfMaterial db input = .ok
        ({ db with boms := db.boms ++ [⟨db.nextBomId, input.parent_item_id,
            input.component_item_id, input.quantity⟩], nextBomId := db.nextBomId + 1 },
          ⟨db.nextBomId, input.parent_item_id, input.component_item_id,
            input.quantity⟩)) := by
  obtain ⟨itp, hitp⟩ := Option.isSome_iff_exists.mp hp
  obtain ⟨itc, hitc⟩ := Option.isSome_iff_exists.mp hc
  have hnee : (input.parent_item_id == input.component_item_id) = false := by
    simpa using hne
  constructor
  · rintro ⟨e, he, h1, h2⟩
    have hfil : (db.boms.filter (fun b =>
        b.parent_item_id == input.component_item_id &&
        b.component_item_id == input.parent_item_id)).isEmpty = false :=
      filter_isEmpty_false_of_mem _ _ e he (by simp [h1, h2])
    constructor
    · simp [createBillOfMaterial, hitp, hitc, hnee, hfil]
    · simp [applyOp, createBillOfMaterial, hitp, hitc, hnee, hfil]
  · intro hnorev hnodup
    have hfilrev : (db.boms.filter (fun b =>
        b.parent_item_id == input.component_item_id &&
        b.component_item_id == input.parent_item_id)).isEmpty = true := by
      apply filter_isEmpty_true_of_none
      intro e he
      cases hb : (e.parent_item_id == input.component_item_id &&
          e.component_item_id == input.parent_item_id) with
      | false => rfl
      | true =>
        simp only [Bool.and_eq_true, beq_iff_eq] at hb
        exact absurd ⟨e, he, hb.1, hb.2⟩ hnorev
    have hfildup : (db.boms.filter (fun b =>
        b.parent_item_id == input.parent_item_id &&
        b.component_item_id == input.component_item_id)).isEmpty = true := by
      apply filter_isEmpty_true_of_none
      intro e he
      cases hb : (e.parent_item_id == input.parent_item_id &&
          e.component_item_id == input.component_item_id) with
      | false => rfl
      | true =>
        simp only [Bool.and_eq_true, beq_iff_eq] at hb
        exact absurd ⟨e, he, hb.1, hb.2⟩ hnodup
    simp [createBillOfMaterial, hitp, hitc, hnee, hfilrev, hfildup]

/-- Witness state for the amended C1: items 1, 2 exist and the lone edge
2 → 1 is the direct reverse of the requested edge (1, 2). -/
def bomWDb : DB :=
  ⟨[⟨1, "A", "SKA", false, 0, "ea"⟩, ⟨2, "B", "SKB", false, 0, "ea"⟩], [], [],
    [⟨1, 2, 1, 1⟩], [], 1, 2⟩

theorem C1_create_cycle_check_witness :
    createBillOfMaterial bomWDb ⟨1, 2, 1⟩ = .error .circularDependency := by
  have h := (C1_create_cycle_check bomWDb ⟨1, 2, 1⟩ (by decide) (by decide)
    (by decide)).1
  exact (h ⟨⟨1, 2, 1, 1⟩, by decide, rfl, rfl⟩).1

/-- Counterexample state for C3: edges (1, 2) and (1, 3) exist with
distinct ids 1 and 2. -/
def dupCxDb : DB :=
  ⟨[⟨1, "A", "SKA", false, 0, "ea"⟩, ⟨2, "B", "SKB", false, 0, "ea"⟩,
    ⟨3, "C", "SKC", false, 0, "ea"⟩], [], [], [⟨1, 1, 2, 1⟩, ⟨2, 1, 3, 1⟩], [], 1, 3⟩

/-- C3: update_bill_of_material.ts performs no duplicate-pair check, so
rewiring edge 2 from (1, 3) to (1, 2) succeeds and leaves two distinct
edges that share the (parent, component) pair (1, 2), contradicting the
claimed invariant preservation. -/
theorem C3_counterexample :
    updateBillOfMaterial dupCxDb ⟨2, none, some 2, none⟩ 5 =
      some (.ok ({ dupCxDb with boms := [⟨1, 1, 2, 1⟩, ⟨2, 1, 2, 1⟩] },
        ⟨2, 1, 2, 1⟩)) ∧
    (⟨1, 1, 2, 1⟩ : BomEdge) ≠ ⟨2, 1, 2, 1⟩ ∧
    (([⟨1, 1, 2, 1⟩, ⟨2, 1, 2, 1⟩] : List BomEdge).filter (fun b =>
      b.parent_item_id == 1 && b.component_item_id == 2)).length = 2 := by
  refine ⟨by decide, by decide, by decide⟩

/-- At most one edge per (parent, component) pair. -/
def PairUnique (edges : List BomEdge) : Prop :=
  List.Pairwise (fun a b => ¬(a.parent_item_id = b.parent_item_id ∧
    a.component_item_id = b.component_item_id)) edges

/-- C3 (amended): createBomEdge rejects a duplicate (parent, component)
pair with DuplicateEdgeError leaving the state unchanged, and a
successful creation preserves pair-uniqueness of the edge set;
updateBomEdge, however, runs no duplicate-pair check and can produce two
distinct edges sharing a pair. -/
theorem C3_create_duplicate_guard (db : DB) (input : CreateBomInput)
    (hp : (findItem db input.parent_item_id).isSome)
    (hc : (findItem db input.component_item_id).isSome)
    (hne : input.parent_item_id ≠ input.component_item_id)
    (hnorev : ¬ ∃ e ∈ db.boms, e.parent_item_id = input.component_item_id ∧
      e.component_item_id = input.parent_item_id) :
    ((∃ e ∈ db.boms, e.parent_item_id = input.parent_item_id ∧
        e.component_item_id = input.component_item_id) →
      createBillOfMaterial db input = .error .duplicateEdge ∧
      applyOp db (.createBom input) = db) ∧
    (∀ db2 edge, createBillOfMaterial db input = .ok (db2, edge) →
      PairUnique db.boms → PairUnique db2.boms) := by
  obtain ⟨itp, hitp⟩ := Option.isSome_iff_exists.mp hp
  obtain ⟨itc, hitc⟩ := Option.isSome_iff_exists.mp hc
  have hnee : (input.parent_item_id == input.component_item_id) = false := by
    simpa using hne
  have hfilrev : (db.boms.filter (fun b =>
      b.parent_item_id == input.component_item_id &&
      b.component_item_id == input.parent_item_id)).isEmpty = true := by
    apply filter_isEmpty_true_of_none
    intro e he
    cases hb : (e.parent_item_id == input.component_item_id &&
        e.component_item_id == input.parent_item_id) with
    | false => rfl
    | true =>
      simp only [Bool.and_eq_true, beq_iff_eq] at hb
      exact absurd ⟨e, he, hb.1, hb.2⟩ hnorev
  constructor
  · rintro ⟨e, he, h1, h2⟩
    have hfil : (db.boms.filter (fun b =>
        b.parent_item_id == input.parent_item_id &&
        b.component_item_id == input.component_item_id)).isEmpty = false :=
      filter_isEmpty_false_of_mem _ _ e he (by simp [h1, h2])
    constructor
    · simp [createBillOfMaterial, hitp, hitc, hnee, hfilrev, hfil]
    · simp [applyOp, createBillOfMaterial, hitp, hitc, hnee, hfilrev, hfil]
  · intro db2 edge hok hpu
    by_cases hdup : (db.boms.filter (fun b =>
        b.parent_item_id == input.parent_item_id &&
        b.component_item_id == input.component_item_id)).isEmpty
    · have heq : createBillOfMaterial db input = .ok
          ({ db with boms := db.boms ++ [⟨db.nextBomId, input.parent_item_id,
              input.component_item_id, input.quantity⟩], nextBomId := db.nextBomId + 1 },
            ⟨db.nextBomId, input.parent_item_id, input.component_item_id,
              input.quantity⟩) := by
        simp [createBillOfMaterial, hitp, hitc, hnee, hfilrev, hdup]
      rw [heq] at hok
      simp only [Except.ok.injEq, Prod.mk.injEq] at hok
      have hdb2 : db2.boms = db.boms ++ [⟨db.nextBomId, input.parent_item_id,
          input.component_item_id, input.quantity⟩] := by
        rw [← hok.1]
      rw [hdb2]
      show List.Pairwise _ _
      rw [List.pairwise_append]
      refine ⟨hpu, List.pairwise_singleton _ _, ?_⟩
      · intro a ha b hb
        have hbsingle : b = ⟨db.nextBomId, input.parent_item_id,
            input.component_item_id, input.quantity⟩ := by simpa using hb
        subst hbsingle
        intro hco
        have : (db.boms.filter (fun b =>
            b.parent_item_id == input.parent_item_id &&
            b.component_item_id == input.component_item_id)).isEmpty = false :=
          filter_isEmpty_false_of_mem _ _ a ha (by simp [hco.1, hco.2])
        rw [this] at hdup
        simp at hdup
    · have heq : createBillOfMaterial db input = .error .duplicateEdge := by
        have hd : (db.boms.filter (fun b =>
            b.parent_item_id == input.parent_item_id &&
            b.component_item_id == input.component_item_id)).isEmpty = false := by
          simpa using hdup
        simp [createBillOfMaterial, hitp, hitc, hnee, hfilrev, hd]
      rw [heq] at hok
      simp at hok

/-- Witness state for the amended C3: items 1, 2 and the edge (1, 2)
already exist. -/
def dupWDb : DB :=
  ⟨[⟨1, "A", "SKA", false, 0, "ea"⟩, ⟨2, "B", "SKB", false, 0, "ea"⟩], [], [],
    [⟨1, 1, 2, 1⟩], [], 1, 2⟩

theorem C3_create_duplicate_guard_witness :
    createBillOfMaterial dupWDb ⟨1, 2, 1⟩ = .error .duplicateEdge := by
  have h := (C3_create_duplicate_guard dupWDb ⟨1, 2, 1⟩ (by decide) (by decide)
    (by decide) (by decide)).1
  exact (h ⟨⟨1, 1, 2, 1⟩, by decide, rfl, rfl⟩).1

/-! C9: termination behaviour of the cycle search. -/

/-- A cyclic edge set on which the search is started at node 10 looking
for the unrelated target 99: the recursion bounces between 10 and 20. -/
def cycSearchEdges : List BomEdge := [⟨1, 10, 20, 1⟩, ⟨2, 20, 10, 1⟩]

theorem cycSearch_spins (fuel : Nat) :
    checkCircularDependency cycSearchEdges 99 0 fuel 10 = none ∧
    checkCircularDependency cycSearchEdges 99 0 fuel 20 = none := by
  induction fuel with
  | zero => exact ⟨rfl, rfl⟩
  | succ n ih =>
    have hrel10 : relevantBoms cycSearchEdges 10 0 = [⟨1, 10, 20, 1⟩] := by decide
    have hrel20 : relevantBoms cycSearchEdges 20 0 = [⟨2, 20, 10, 1⟩] := by decide
    constructor
    · show checkCircLoop 99 (checkCircularDependency cycSearchEdges 99 0 n)
        (relevantBoms cycSearchEdges 10 0) = none
      rw [hrel10]
      simp [checkCircLoop, ih.2]
    · show checkCircLoop 99 (checkCircularDependency cycSearchEdges 99 0 n)
        (relevantBoms cycSearchEdges 20 0) = none
      rw [hrel20]
      simp [checkCircLoop, ih.1]

/-- C9: the claim says the search terminates on every finite edge set,
already-cyclic ones included, thanks to a visited set; but
checkCircularDependency keeps no visited set, and on the two-edge cycle
10 ⇄ 20 the recursion started at 10 never returns: no recursion depth
suffices. -/
theorem C9_counterexample :
    ¬ ∃ fuel, (checkCircularDependency cycSearchEdges 99 0 fuel 10).isSome = true := by
  rintro ⟨fuel, h⟩
  rw [(cycSearch_spins fuel).1] at h
  simp at h

theorem relevantBoms_mem {es : List BomEdge} {c ex : Nat} {b : BomEdge}
    (h : b ∈ relevantBoms es c ex) : b ∈ es ∧ b.parent_item_id = c ∧ b.id ≠ ex := by
  simp only [relevantBoms, List.mem_filter, Bool.and_eq_true, beq_iff_eq,
    bne_iff_ne, ne_eq] at h
  exact ⟨h.1.1, h.1.2, h.2⟩

theorem edgeChain_append_split {es : List BomEdge} {ex : Nat} {d : Nat}
    {l1 l2 : List BomEdge} :
    ∀ {c}, EdgeChain es ex c (l1 ++ l2) d →
      ∃ m, EdgeChain es ex c l1 m ∧ EdgeChain es ex m l2 d := by
  induction l1 with
  | nil => exact fun h => ⟨_, .nil _, by simpa using h⟩
  | cons e l1 ih =>
    intro c h
    cases h with
    | cons hmem hid htail =>
      obtain ⟨m, hm1, hm2⟩ := ih htail
      exact ⟨m, .cons hmem hid hm1, hm2⟩

theorem edgeChain_cons_inv {es : List BomEdge} {ex : Nat} {m d : Nat} {e : BomEdge}
    {l : List BomEdge} (h : EdgeChain es ex m (e :: l) d) :
    m = e.parent_item_id ∧ e ∈ es ∧ e.id ≠ ex ∧
      EdgeChain es ex e.component_item_id l d := by
  cases h with
  | cons hmem hid htail => exact ⟨rfl, hmem, hid, htail⟩

theorem edgeChain_nodup {es : List BomEdge} {ex : Nat}
    (hacyc : AcyclicExcluding es ex) {c : Nat} {l : List BomEdge} {d : Nat}
    (h : EdgeChain es ex c l d) : l.Nodup := by
  induction h with
  | nil => simp
  | @cons e l d hmem hid htail ih =>
    refine List.nodup_cons.mpr ⟨?_, ih⟩
    intro hin
    obtain ⟨s, t, hst⟩ := List.append_of_mem hin
    rw [hst] at htail
    obtain ⟨m, hm1, hm2⟩ := edgeChain_append_split htail
    obtain ⟨hmeq, _, _, _⟩ := edgeChain_cons_inv hm2
    rw [hmeq] at hm1
    have hcyc : EdgeChain es ex e.parent_item_id (e :: s) e.parent_item_id :=
      .cons hmem hid hm1
    have := hacyc _ _ hcyc
    simp at this

theorem edgeChain_subset {es : List BomEdge} {ex : Nat} {c : Nat} {l : List BomEdge}
    {d : Nat} (h : EdgeChain es ex c l d) : ∀ e ∈ l, e ∈ es := by
  induction h with
  | nil => simp
  | @cons e l d hmem hid htail ih =>
    intro b hb
    rcases List.mem_cons.mp hb with hb | hb
    · rw [hb]; exact hmem
    · exact ih b hb

theorem edgeChain_length_le {es : List BomEdge} {ex : Nat}
    (hacyc : AcyclicExcluding es ex) {c : Nat} {l : List BomEdge} {d : Nat}
    (h : EdgeChain es ex c l d) : l.length ≤ es.length := by
  have hnd := edgeChain_nodup hacyc h
  have hsub := edgeChain_subset h
  calc l.length = l.toFinset.card := (List.toFinset_card_of_nodup hnd).symm
    _ ≤ es.toFinset.card := by
        apply Finset.card_le_card
        intro x hx
        rw [List.mem_toFinset] at hx ⊢
        exact hsub x hx
    _ ≤ es.length := es.toFinset_card_le

theorem checkCircLoop_isSome (es : List BomEdge) (target ex : Nat) (n : Nat)
    (ih : ∀ c2, (∀ l d, EdgeChain es ex c2 l d → l.length < n) →
      (checkCircularDependency es target ex n c2).isSome = true)
    (c : Nat) (hch : ∀ l d, EdgeChain es ex c l d → l.length < n + 1) :
    ∀ L, (∀ b ∈ L, b ∈ es ∧ b.parent_item_id = c ∧ b.id ≠ ex) →
      (checkCircLoop target (checkCircularDependency es target ex n) L).isSome = true := by
  intro L
  induction L with
  | nil => intro _; simp [checkCircLoop]
  | cons b rest ihL =>
    intro hmem
    have hb := hmem b (by simp)
    by_cases hbt : (b.component_item_id == target) = true
    · simp [checkCircLoop, hbt]
    · have hrec : (checkCircularDependency es target ex n b.component_item_id).isSome
          = true := by
        apply ih
        intro l d hl
        have hchain : EdgeChain es ex c (b :: l) d := by
          have hx := EdgeChain.cons hb.1 hb.2.2 hl
          rwa [hb.2.1] at hx
        have := hch (b :: l) d hchain
        simpa [Nat.succ_lt_succ_iff] using this
      obtain ⟨v, hv⟩ := Option.isSome_iff_exists.mp hrec
      cases v with
      | true => simp [checkCircLoop, hbt, hv]
      | false =>
        have htail := ihL (fun b2 hb2 => hmem b2 (by simp [hb2]))
        simpa [checkCircLoop, hbt, hv] using htail

theorem checkCirc_isSome (es : List BomEdge) (target ex : Nat) :
    ∀ fuel c, (∀ l d, EdgeChain es ex c l d → l.length < fuel) →
      (checkCircularDependency es target ex fuel c).isSome = true := by
  intro fuel
  induction fuel with
  | zero =>
    intro c h
    exact absurd (h [] c (.nil c)) (by simp)
  | succ n ih =>
    intro c hch
    show (checkCircLoop target (checkCircularDependency es target ex n)
      (relevantBoms es c ex)).isSome = true
    exact checkCircLoop_isSome es target ex n ih c hch _
      (fun b hb => relevantBoms_mem hb)

/-- C9 (amended): the depth-first traversal keeps NO visited set, so it
need not terminate on edge sets that already contain a cycle; on every
edge set that is acyclic (once the excluded edge is disregarded) the
recursion depth is bounded by the number of edges and the search returns
an answer. -/
theorem C9_search_terminates_on_acyclic (es : List BomEdge) (target ex c : Nat)
    (hacyc : AcyclicExcluding es ex) :
    (checkCircularDependency es target ex (es.length + 1) c).isSome = true := by
  apply checkCirc_isSome
  intro l d h
  exact Nat.lt_succ_of_le (edgeChain_length_le hacyc h)

theorem C9_search_terminates_witness :
    (checkCircularDependency [] 5 0 1 7).isSome = true := by
  have hacyc : AcyclicExcluding ([] : List BomEdge) 0 := by
    intro c l hch
    cases hch with
    | nil => rfl
    | cons hmem _ _ => exact absurd hmem (List.not_mem_nil _)
  exact C9_search_terminates_on_acyclic [] 5 0 7 hacyc

/-! C6 and C7: production. -/

theorem enumFrom_map_snd {α β : Type} (f : α → β) :
    ∀ (n : Nat) (l : List α), (List.enumFrom n l).map (fun p => f p.2) = l.map f := by
  intro n l
  induction l generalizing n with
  | nil => rfl
  | cons a l ih => simp [List.enumFrom, ih]

theorem produceItem_cases (db : DB) (input : ProduceItemInput) (now : Nat) (db2 : DB)
    (ms : List StockMovement) (h : produceItem db input now = .ok (db2, ms)) :
    ∃ item, findItem db input.item_id = some item ∧ item.is_manufactured = true ∧
      bomComponentsFor db input.item_id ≠ [] ∧
      deficientOf (requiredComponentsFor (bomComponentsFor db input.item_id) input.quantity)
        (stockChecksFor db (requiredComponentsFor (bomComponentsFor db input.item_id)
          input.quantity) input.location_id) = [] ∧
      ms = productionMovement db input now ::
        consumptionMovements db input now item.name
          (requiredComponentsFor (bomComponentsFor db input.item_id) input.quantity) ∧
      db2.movements = db.movements ++ ms ∧
      db2.items = db.items ∧ db2.boms = db.boms := by
  cases hfi : findItem db input.item_id with
  | none =>
    simp only [produceItem, hfi] at h
    simp at h
  | some item =>
    simp only [produceItem, hfi] at h
    by_cases hman : item.is_manufactured = true
    · rw [hman] at h
      simp only [Bool.not_true, Bool.false_eq_true, if_false] at h
      by_cases hcomps : bomComponentsFor db input.item_id = []
      · rw [hcomps] at h
        simp at h
      · have hce : (bomComponentsFor db input.item_id).isEmpty = false := by
          cases hc2 : bomComponentsFor db input.item_id with
          | nil => exact absurd hc2 hcomps
          | cons a l => simp
        rw [hce] at h
        simp only [Bool.false_eq_true, if_false] at h
        by_cases hdef : deficientOf (requiredComponentsFor
            (bomComponentsFor db input.item_id) input.quantity)
            (stockChecksFor db (requiredComponentsFor (bomComponentsFor db input.item_id)
              input.quantity) input.location_id) = []
        · rw [hdef] at h
          simp only [List.isEmpty_nil, Bool.not_true, Bool.false_eq_true, if_false,
            Except.ok.injEq, Prod.mk.injEq] at h
          refine ⟨item, rfl, hman, hcomps, hdef, h.2.symm, ?_, ?_, ?_⟩
          · rw [← h.1, ← h.2]
          · rw [← h.1]
          · rw [← h.1]
        · have hde : (deficientOf (requiredComponentsFor
              (bomComponentsFor db input.item_id) input.quantity)
              (stockChecksFor db (requiredComponentsFor (bomComponentsFor db input.item_id)
                input.quantity) input.location_id)).isEmpty = false := by
            cases hd2 : deficientOf (requiredComponentsFor
                (bomComponentsFor db input.item_id) input.quantity)
                (stockChecksFor db (requiredComponentsFor
                  (bomComponentsFor db input.item_id) input.quantity) input.location_id) with
            | nil => exact absurd hd2 hdef
            | cons a l => simp
          rw [hde] at h
          simp at h
    · have hm2 : item.is_manufactured = false := by
        cases hm3 : item.is_manufactured with
        | false => rfl
        | true => exact absurd hm3 hman
      rw [hm2] at h
      simp at h

/-- C6: every successful produceItem appends the Production movement
followed by one Consumption movement per direct component edge, whose
quantity is exactly the negated product of the edge multiplier and the
produced quantity, in exact rational arithmetic. -/
theorem C6_consumption_law (db : DB) (input : ProduceItemInput) (now : Nat)
    (db2 : DB) (ms : List StockMovement)
    (h : produceItem db input now = .ok (db2, ms)) :
    ∃ production consumptions, ms = production :: consumptions ∧
      production.movement_type = .production ∧
      production.quantity = input.quantity ∧
      consumptions.map (fun m => m.quantity) =
        (bomComponentsFor db input.item_id).map
          (fun c => -(c.quantity_per_unit * input.quantity)) ∧
      consumptions.map (fun m => m.item_id) =
        (bomComponentsFor db input.item_id).map (fun c => c.component_item_id) ∧
      ∀ m ∈ consumptions, m.movement_type = .consumption ∧ m.date = now ∧
        m.location_id = input.location_id := by
  obtain ⟨item, hfi, hman, hcomps, hdef, hms, hdb2, _, _⟩ :=
    produceItem_cases db input now db2 ms h
  refine ⟨productionMovement db input now,
    consumptionMovements db input now item.name
      (requiredComponentsFor (bomComponentsFor db input.item_id) input.quantity),
    hms, rfl, rfl, ?_, ?_, ?_⟩
  · rw [consumptionMovements, List.map_map, List.enum]
    rw [show ((fun m : StockMovement => m.quantity) ∘ fun p : Nat × RequiredComponent =>
      ({ id := db.nextMovementId + 1 + p.1, item_id := p.2.item_id,
         location_id := input.location_id, movement_type := .consumption,
         quantity := -p.2.required_quantity, date := now,
         reference := some (consumptionReference item.name input.reference) } :
           StockMovement)) = fun p : Nat × RequiredComponent =>
             -p.2.required_quantity from rfl]
    rw [enumFrom_map_snd (fun r : RequiredComponent => -r.required_quantity)]
    rw [requiredComponentsFor, List.map_map]
    rfl
  · rw [consumptionMovements, List.map_map, List.enum]
    rw [show ((fun m : StockMovement => m.item_id) ∘ fun p : Nat × RequiredComponent =>
      ({ id := db.nextMovementId + 1 + p.1, item_id := p.2.item_id,
         location_id := input.location_id, movement_type := .consumption,
         quantity := -p.2.required_quantity, date := now,
         reference := some (consumptionReference item.name input.reference) } :
           StockMovement)) = fun p : Nat × RequiredComponent => p.2.item_id from rfl]
    rw [enumFrom_map_snd (fun r : RequiredComponent => r.item_id)]
    rw [requiredComponentsFor, List.map_map]
    rfl
  · intro m hm
    rw [consumptionMovements, List.mem_map] at hm
    obtain ⟨p, _, hp⟩ := hm
    rw [← hp]
    exact ⟨rfl, rfl, rfl⟩

theorem availableFor_stockChecks (db : DB) (loc i : Nat) :
    ∀ (required : List RequiredComponent), (∃ r ∈ required, r.item_id = i) →
      availableFor (stockChecksFor db required loc) i =
        currentQuantity db.movements i loc := by
  intro required
  induction required with
  | nil => rintro ⟨r, hr, _⟩; simp at hr
  | cons r rest ih =>
    rintro ⟨r2, hr2, he⟩
    by_cases hri : r.item_id = i
    · show availableFor (⟨r.item_id, currentQuantity db.movements r.item_id loc⟩ ::
        stockChecksFor db rest loc) i = _
      unfold availableFor
      rw [List.find?_cons_of_pos _ (by simp [hri])]
      simp [hri]
    · have h2 : ∃ r3 ∈ rest, r3.item_id = i := by
        rcases List.mem_cons.mp hr2 with h3 | h3
        · exact absurd (h3 ▸ he) hri
        · exact ⟨r2, h3, he⟩
      have hrec := ih h2
      show availableFor (⟨r.item_id, currentQuantity db.movements r.item_id loc⟩ ::
        stockChecksFor db rest loc) i = _
      unfold availableFor at hrec ⊢
      rw [List.find?_cons_of_neg _ (by simp [hri])]
      exact hrec

theorem deficientOf_complete (required : List RequiredComponent)
    (levels : List StockCheck) (r : RequiredComponent) (hr : r ∈ required)
    (hlt : availableFor levels r.item_id < r.required_quantity) :
    (⟨r.name, r.sku, r.required_quantity, availableFor levels r.item_id⟩ :
      DeficientComponent) ∈ deficientOf required levels := by
  unfold deficientOf
  rw [List.mem_filterMap]
  exact ⟨r, hr, by simp [hlt]⟩

theorem deficientOf_sound (required : List RequiredComponent)
    (levels : List StockCheck) (d : DeficientComponent)
    (hd : d ∈ deficientOf required levels) :
    ∃ r ∈ required, availableFor levels r.item_id < r.required_quantity ∧
      d = ⟨r.name, r.sku, r.required_quantity, availableFor levels r.item_id⟩ := by
  unfold deficientOf at hd
  rw [List.mem_filterMap] at hd
  obtain ⟨r, hr, hmap⟩ := hd
  by_cases hlt : availableFor levels r.item_id < r.required_quantity
  · refine ⟨r, hr, hlt, ?_⟩
    simp only [hlt, if_true] at hmap
    exact (Option.some.injEq _ _).mp hmap |>.symm
  · simp only [hlt, if_false] at hmap
    simp at hmap

theorem deficientOf_eq_nil_iff (db : DB) (loc : Nat)
    (required : List RequiredComponent) :
    deficientOf required (stockChecksFor db required loc) = [] ↔
      ∀ r ∈ required,
        ¬(currentQuantity db.movements r.item_id loc < r.required_quantity) := by
  constructor
  · intro hnil r hr hlt
    have hav : availableFor (stockChecksFor db required loc) r.item_id =
        currentQuantity db.movements r.item_id loc :=
      availableFor_stockChecks db loc r.item_id required ⟨r, hr, rfl⟩
    have hmem := deficientOf_complete required (stockChecksFor db required loc) r hr
      (by rw [hav]; exact hlt)
    rw [hnil] at hmem
    simp at hmem
  · intro hall
    rw [List.eq_nil_iff_forall_not_mem]
    intro d hd
    obtain ⟨r, hr, hlt, _⟩ := deficientOf_sound required _ d hd
    have hav := availableFor_stockChecks db loc r.item_id required ⟨r, hr, rfl⟩
    rw [hav] at hlt
    exact hall r hr hlt

/-- C7: with the item found, produceItem fails with NotManufacturedError
when the manufactured flag is unset; with NoBomError when there is no
direct component edge; and, when some component is short, with
InsufficientComponentStock whose list contains every deficient component
with its required and available quantity (and nothing else); in every
failure case the state is unchanged, and with no deficient component the
call succeeds. -/
theorem C7_produce_failure_modes (db : DB) (input : ProduceItemInput) (now : Nat)
    (item : Item) (hfi : findItem db input.item_id = some item) :
    (item.is_manufactured = false →
      produceItem db input now = .error (.notManufactured item.name) ∧
      applyOp db (.produce input now) = db) ∧
    (item.is_manufactured = true → bomComponentsFor db input.item_id = [] →
      produceItem db input now = .error (.noBom item.name) ∧
      applyOp db (.produce input now) = db) ∧
    (item.is_manufactured = true → bomComponentsFor db input.item_id ≠ [] →
      ((∃ c ∈ bomComponentsFor db input.item_id,
          currentQuantity db.movements c.component_item_id input.location_id <
            c.quantity_per_unit * input.quantity) →
        ∃ D, produceItem db input now = .error (.insufficientComponentStock D) ∧
          D ≠ [] ∧ applyOp db (.produce input now) = db ∧
          (∀ c ∈ bomComponentsFor db input.item_id,
            currentQuantity db.movements c.component_item_id input.location_id <
              c.quantity_per_unit * input.quantity →
            (⟨c.component_name, c.component_sku, c.quantity_per_unit * input.quantity,
              currentQuantity db.movements c.component_item_id input.location_id⟩ :
                DeficientComponent) ∈ D) ∧
          (∀ d ∈ D, ∃ c ∈ bomComponentsFor db input.item_id,
            currentQuantity db.movements c.component_item_id input.location_id <
              c.quantity_per_unit * input.quantity ∧
            d.name = c.component_name ∧ d.sku = c.component_sku ∧
            d.required = c.quantity_per_unit * input.quantity ∧
            d.available = currentQuantity db.movements c.component_item_id
              input.location_id)) ∧
      ((∀ c ∈ bomComponentsFor db input.item_id,
          c.quantity_per_unit * input.quantity ≤
            currentQuantity db.movements c.component_item_id input.location_id) →
        (produceItem db input now).isOk = true)) := by
  refine ⟨?_, ?_, ?_⟩
  · intro hm
    have h1 : produceItem db input now = .error (.notManufactured item.name) := by
      simp only [produceItem, hfi, hm, Bool.not_false, if_true]
    exact ⟨h1, by simp [applyOp, h1]⟩
  · intro hm hcnil
    have hc2 : (bomComponentsFor db input.item_id).isEmpty = true := by
      simp [hcnil]
    have h1 : produceItem db input now = .error (.noBom item.name) := by
      simp only [produceItem, hfi, hm, Bool.not_true, Bool.false_eq_true, if_false,
        hc2, if_true]
    exact ⟨h1, by simp [applyOp, h1]⟩
  · intro hm hcne
    have hce : (bomComponentsFor db input.item_id).isEmpty = false := by
      cases hc2 : bomComponentsFor db input.item_id with
      | nil => exact absurd hc2 hcne
      | cons a l => simp
    constructor
    · rintro ⟨c, hc, hlt⟩
      have hrmem : (⟨c.component_item_id, c.component_name, c.component_sku,
          c.quantity_per_unit * input.quantity⟩ : RequiredComponent) ∈
          requiredComponentsFor (bomComponentsFor db input.item_id) input.quantity := by
        rw [requiredComponentsFor]
        exact List.mem_map_of_mem _ hc
      have hdefne : deficientOf
          (requiredComponentsFor (bomComponentsFor db input.item_id) input.quantity)
          (stockChecksFor db (requiredComponentsFor (bomComponentsFor db input.item_id)
            input.quantity) input.location_id) ≠ [] := by
        intro hnil
        exact (deficientOf_eq_nil_iff db input.location_id _).mp hnil _ hrmem hlt
      have hde : (deficientOf
          (requiredComponentsFor (bomComponentsFor db input.item_id) input.quantity)
          (stockChecksFor db (requiredComponentsFor (bomComponentsFor db input.item_id)
            input.quantity) input.location_id)).isEmpty = false := by
        cases hd2 : deficientOf
            (requiredComponentsFor (bomComponentsFor db input.item_id) input.quantity)
            (stockChecksFor db (requiredComponentsFor (bomComponentsFor db input.item_id)
              input.quantity) input.location_id) with
        | nil => exact absurd hd2 hdefne
        | cons a l => simp
      have herr : produceItem db input now = .error (.insufficientComponentStock
          (deficientOf
            (requiredComponentsFor (bomComponentsFor db input.item_id) input.quantity)
            (stockChecksFor db (requiredComponentsFor (bomComponentsFor db input.item_id)
              input.quantity) input.location_id))) := by
        simp only [produceItem, hfi, hm, Bool.not_true, Bool.false_eq_true, if_false,
          hce, hde, Bool.not_false, if_true]
      refine ⟨_, herr, hdefne, by simp [applyOp, herr], ?_, ?_⟩
      · intro c2 hc2m hlt2
        have hr2 : (⟨c2.component_item_id, c2.component_name, c2.component_sku,
            c2.quantity_per_unit * input.quantity⟩ : RequiredComponent) ∈
            requiredComponentsFor (bomComponentsFor db input.item_id) input.quantity := by
          rw [requiredComponentsFor]
          exact List.mem_map_of_mem _ hc2m
        have hav := availableFor_stockChecks db input.location_id c2.component_item_id
          (requiredComponentsFor (bomComponentsFor db input.item_id) input.quantity)
          ⟨_, hr2, rfl⟩
        have hmem := deficientOf_complete _ _ _ hr2 (by rw [hav]; exact hlt2)
        rw [hav] at hmem
        exact hmem
      · intro d hd
        obtain ⟨r, hr, hlt3, hdeq⟩ := deficientOf_sound _ _ d hd
        have hav := availableFor_stockChecks db input.location_id r.item_id
          (requiredComponentsFor (bomComponentsFor db input.item_id) input.quantity)
          ⟨r, hr, rfl⟩
        rw [requiredComponentsFor, List.mem_map] at hr
        obtain ⟨c3, hc3, hgc⟩ := hr
        refine ⟨c3, hc3, ?_, ?_, ?_, ?_, ?_⟩
        · rw [hav] at hlt3
          rw [← hgc] at hlt3
          exact hlt3
        · rw [hdeq, ← hgc]
        · rw [hdeq, ← hgc]
        · rw [hdeq, ← hgc]
        · rw [hdeq, hav, ← hgc]
    · intro hall
      have hdefnil : deficientOf
          (requiredComponentsFor (bomComponentsFor db input.item_id) input.quantity)
          (stockChecksFor db (requiredComponentsFor (bomComponentsFor db input.item_id)
            input.quantity) input.location_id) = [] := by
        rw [deficientOf_eq_nil_iff]
        intro r hr
        rw [requiredComponentsFor, List.mem_map] at hr
        obtain ⟨c, hc, hgc⟩ := hr
        rw [← hgc]
        exact not_lt.mpr (hall c hc)
      have h1 : produceItem db input now = .ok
          ({ db with
              movements := db.movements ++ productionMovement db input now ::
                consumptionMovements db input now item.name
                  (requiredComponentsFor (bomComponentsFor db input.item_id)
                    input.quantity)
              nextMovementId := db.nextMovementId + 1 +
                (requiredComponentsFor (bomComponentsFor db input.item_id)
                  input.quantity).length },
            productionMovement db input now ::
              consumptionMovements db input now item.name
                (requiredComponentsFor (bomComponentsFor db input.item_id)
                  input.quantity)) := by
        simp only [produceItem, hfi, hm, Bool.not_true, Bool.false_eq_true, if_false,
          hce, hdefnil, List.isEmpty_nil, Bool.not_false]
      rw [h1]
      rfl

/-- Witness state for C6: manufactured item 1 with one component edge
(1 → 2, multiplier 1.5) and 4 units of component 2 at location 1. -/
def produceWDb : DB :=
  ⟨[⟨1, "P", "SKP", true, 0, "ea"⟩, ⟨2, "C", "SKC", false, 0, "ea"⟩],
    [⟨1, "L1"⟩], [], [⟨1, 1, 2, 3/2⟩], [⟨1, 2, 1, .receipt, 4, 0, none⟩], 2, 2⟩

theorem produceWDb_eval :
    produceItem produceWDb ⟨1, 1, 5/2, none⟩ 9 = .ok (
      { produceWDb with
          movements := produceWDb.movements ++
            [⟨2, 1, 1, .production, 5/2, 9, none⟩,
             ⟨3, 2, 1, .consumption, -(15/4), 9, some "Production of P"⟩]
          nextMovementId := 4 },
      [⟨2, 1, 1, .production, 5/2, 9, none⟩,
       ⟨3, 2, 1, .consumption, -(15/4), 9, some "Production of P"⟩]) := by
  have hfi : findItem produceWDb 1 = some ⟨1, "P", "SKP", true, 0, "ea"⟩ := by decide
  have hbc : bomComponentsFor produceWDb 1 = [⟨2, 3/2, "C", "SKC"⟩] := by
    simp [bomComponentsFor, findItem, produceWDb]
  have hreq : requiredComponentsFor [⟨2, 3/2, "C", "SKC"⟩] (5/2) =
      [⟨2, "C", "SKC", 15/4⟩] := by
    norm_num [requiredComponentsFor]
  have hcur : currentQuantity produceWDb.movements 2 1 = 4 := by
    norm_num [currentQuantity, produceWDb]
  have hlev : stockChecksFor produceWDb [⟨2, "C", "SKC", 15/4⟩] 1 = [⟨2, 4⟩] := by
    simp [stockChecksFor, hcur]
  have hdef : deficientOf [⟨2, "C", "SKC", 15/4⟩] [⟨2, 4⟩] = [] := by
    norm_num [deficientOf, availableFor, List.filterMap]
  simp only [produceItem, hfi, hbc, hreq, hlev, hdef, Bool.not_true, List.isEmpty_cons,
    List.isEmpty_nil, Bool.not_false, if_false, if_true, Bool.false_eq_true,
    productionMovement, consumptionMovements, consumptionReference, List.enum,
    List.enumFrom, List.map, List.length]
  simp [produceWDb]
  norm_num

theorem C6_consumption_law_witness :
    ∃ production consumptions,
      ([⟨2, 1, 1, .production, 5/2, 9, none⟩,
        ⟨3, 2, 1, .consumption, -(15/4), 9, some "Production of P"⟩] :
          List StockMovement) = production :: consumptions ∧
      production.movement_type = .production ∧
      production.quantity = (5/2 : ℚ) ∧
      consumptions.map (fun m => m.quantity) =
        (bomComponentsFor produceWDb 1).map
          (fun c => -(c.quantity_per_unit * (5/2 : ℚ))) ∧
      consumptions.map (fun m => m.item_id) =
        (bomComponentsFor produceWDb 1).map (fun c => c.component_item_id) ∧
      ∀ m ∈ consumptions, m.movement_type = .consumption ∧ m.date = 9 ∧
        m.location_id = 1 :=
  C6_consumption_law produceWDb ⟨1, 1, 5/2, none⟩ 9 _ _ produceWDb_eval

/-- Witness state for C7: manufactured item 1 needs 2 units of component
2 per unit produced, but only 1 unit is on hand at location 1. -/
def produceShortDb : DB :=
  ⟨[⟨1, "P", "SKP", true, 0, "ea"⟩, ⟨2, "C", "SKC", false, 0, "ea"⟩],
    [⟨1, "L1"⟩], [], [⟨1, 1, 2, 2⟩], [⟨1, 2, 1, .receipt, 1, 0, none⟩], 2, 2⟩

theorem C7_produce_failure_modes_witness :
    ∃ D, produceItem produceShortDb ⟨1, 1, 1, none⟩ 9 =
        .error (.insufficientComponentStock D) ∧ D ≠ [] ∧
      applyOp produceShortDb (.produce ⟨1, 1, 1, none⟩ 9) = produceShortDb ∧
      (∀ c ∈ bomComponentsFor produceShortDb 1,
        currentQuantity produceShortDb.movements c.component_item_id 1 <
          c.quantity_per_unit * 1 →
        (⟨c.component_name, c.component_sku, c.quantity_per_unit * 1,
          currentQuantity produceShortDb.movements c.component_item_id 1⟩ :
            DeficientComponent) ∈ D) ∧
      (∀ d ∈ D, ∃ c ∈ bomComponentsFor produceShortDb 1,
        currentQuantity produceShortDb.movements c.component_item_id 1 <
          c.quantity_per_unit * 1 ∧
        d.name = c.component_name ∧ d.sku = c.component_sku ∧
        d.required = c.quantity_per_unit * 1 ∧
        d.available = currentQuantity produceShortDb.movements c.component_item_id 1) := by
  have h := (C7_produce_failure_modes produceShortDb ⟨1, 1, 1, none⟩ 9
    ⟨1, "P", "SKP", true, 0, "ea"⟩ (by decide)).2.2
  have hbc : bomComponentsFor produceShortDb 1 = [⟨2, 2, "C", "SKC"⟩] := by
    simp [bomComponentsFor, findItem, produceShortDb]
  have hinst := (h rfl (by rw [hbc]; simp)).1
  apply hinst
  refine ⟨⟨2, 2, "C", "SKC"⟩, ?_, ?_⟩
  · rw [hbc]; simp
  · norm_num [currentQuantity, produceShortDb]

/-! C10: item deletion and referential integrity. -/

theorem pred_false_of_filter_isEmpty {α : Type} {l : List α} {p : α → Bool}
    (h : (l.filter p).isEmpty = true) : ∀ a ∈ l, p a = false := by
  intro a ha
  cases hp : p a with
  | false => rfl
  | true =>
    rw [filter_isEmpty_false_of_mem l p a ha hp] at h
    exact absurd h (by simp)

theorem mem_enumFrom_snd {α : Type} {p : Nat × α} :
    ∀ {n : Nat} {l : List α}, p ∈ List.enumFrom n l → p.2 ∈ l := by
  intro n l
  induction l generalizing n with
  | nil => intro h; simp [List.enumFrom] at h
  | cons a t ih =>
    intro h
    rcases List.mem_cons.mp h with h1 | h1
    · simp [h1]
    · exact List.mem_cons_of_mem _ (ih h1)

theorem bomComponentsFor_mem (db : DB) (itemId : Nat) (c : BomComponent)
    (hc : c ∈ bomComponentsFor db itemId) :
    ∃ it ∈ db.items, it.id = c.component_item_id := by
  unfold bomComponentsFor at hc
  rw [List.mem_filterMap] at hc
  obtain ⟨b, _, hmap⟩ := hc
  cases hp : (b.parent_item_id == itemId) with
  | false => simp [hp] at hmap
  | true =>
    cases hfi : findItem db b.component_item_id with
    | none => simp [hp, hfi] at hmap
    | some it =>
      simp only [hp, if_true, hfi, Option.some.injEq] at hmap
      obtain ⟨hit, hid⟩ := findItem_eq_some db b.component_item_id it hfi
      refine ⟨it, hit, ?_⟩
      rw [← hmap]
      exact hid

theorem all_ids_present {items : List Item} {ids : List Nat}
    (hnd : (items.map (fun it => it.id)).Nodup) (hids : ids.Nodup)
    (hlen : (items.filter (fun it => ids.contains it.id)).length = ids.length) :
    ∀ x ∈ ids, ∃ it ∈ items, it.id = x := by
  intro x hx
  have hFsub : ∀ it ∈ items.filter (fun it => ids.contains it.id),
      it ∈ items ∧ it.id ∈ ids := by
    intro it hit
    rw [List.mem_filter] at hit
    exact ⟨hit.1, by simpa using hit.2⟩
  have hFnd : ((items.filter (fun it => ids.contains it.id)).map
      (fun it => it.id)).Nodup :=
    hnd.sublist ((List.filter_sublist items).map _)
  have hsub2 : ((items.filter (fun it => ids.contains it.id)).map
      (fun it => it.id)).toFinset ⊆ ids.toFinset := by
    intro y hy
    rw [List.mem_toFinset, List.mem_map] at hy
    obtain ⟨it, hit, hid⟩ := hy
    rw [List.mem_toFinset, ← hid]
    exact (hFsub it hit).2
  have hcard : ids.toFinset.card ≤
      ((items.filter (fun it => ids.contains it.id)).map (fun it => it.id)).toFinset.card := by
    rw [List.toFinset_card_of_nodup hids, List.toFinset_card_of_nodup hFnd,
      List.length_map]
    exact le_of_eq hlen.symm
  have heq := Finset.eq_of_subset_of_card_le hsub2 hcard
  have hxF : x ∈ ((items.filter (fun it => ids.contains it.id)).map
      (fun it => it.id)).toFinset := by
    rw [heq]
    exact List.mem_toFinset.mpr hx
  rw [List.mem_toFinset, List.mem_map] at hxF
  obtain ⟨it, hit, hid⟩ := hxF
  exact ⟨it, (hFsub it hit).1, hid⟩

theorem createBillOfMaterial_ok_inv (db : DB) (input : CreateBomInput) (db2 : DB)
    (edge : BomEdge) (h : createBillOfMaterial db input = .ok (db2, edge)) :
    (∃ it ∈ db.items, it.id = input.parent_item_id) ∧
    (∃ it ∈ db.items, it.id = input.component_item_id) ∧
    db2.items = db.items ∧ db2.movements = db.movements ∧
    db2.boms = db.boms ++ [edge] ∧
    edge.parent_item_id = input.parent_item_id ∧
    edge.component_item_id = input.component_item_id := by
  cases hfp : findItem db input.parent_item_id with
  | none =>
    simp only [createBillOfMaterial, hfp, Option.isNone_none, if_true] at h
    simp at h
  | some itp =>
    cases hfc : findItem db input.component_item_id with
    | none =>
      simp only [createBillOfMaterial, hfp, hfc, Option.isNone_some, Option.isNone_none,
        Bool.false_eq_true, if_false, if_true] at h
      simp at h
    | some itc =>
      simp only [createBillOfMaterial, hfp, hfc, Option.isNone_some,
        Bool.false_eq_true, if_false] at h
      cases hpc : (input.parent_item_id == input.component_item_id) with
      | true => rw [hpc] at h; simp at h
      | false =>
        rw [hpc] at h
        simp only [Bool.false_eq_true, if_false] at h
        cases hrev : (db.boms.filter (fun b =>
            b.parent_item_id == input.component_item_id &&
            b.component_item_id == input.parent_item_id)).isEmpty with
        | false => rw [hrev] at h; simp at h
        | true =>
          rw [hrev] at h
          simp only [Bool.not_true, Bool.false_eq_true, if_false] at h
          cases hdup : (db.boms.filter (fun b =>
              b.parent_item_id == input.parent_item_id &&
              b.component_item_id == input.component_item_id)).isEmpty with
          | false => rw [hdup] at h; simp at h
          | true =>
            rw [hdup] at h
            simp only [Bool.not_true, Bool.false_eq_true, if_false,
              Except.ok.injEq, Prod.mk.injEq] at h
            obtain ⟨hp1, hp2⟩ := findItem_eq_some db _ itp hfp
            obtain ⟨hc1, hc2⟩ := findItem_eq_some db _ itc hfc
            refine ⟨⟨itp, hp1, hp2⟩, ⟨itc, hc1, hc2⟩, ?_, ?_, ?_, ?_, ?_⟩
            · rw [← h.1]
            · rw [← h.1]
            · rw [← h.1, ← h.2]
            · rw [← h.2]
            · rw [← h.2]

theorem issueStock_ok_inv (db : DB) (input : IssueStockInput) (now : Nat) (db2 : DB)
    (m : StockMovement) (h : issueStock db input now = .ok (db2, m)) :
    (∃ it ∈ db.items, it.id = input.item_id) ∧ db2.items = db.items ∧
    db2.boms = db.boms ∧ db2.movements = db.movements ++ [m] ∧
    m.item_id = input.item_id := by
  cases hfi : findItem db input.item_id with
  | none =>
    simp only [issueStock, hfi, Option.isNone_none, if_true] at h
    simp at h
  | some it =>
    cases hfl : findLocation db input.location_id with
    | none =>
      simp only [issueStock, hfi, hfl, Option.isNone_some, Option.isNone_none,
        Bool.false_eq_true, if_false, if_true] at h
      simp at h
    | some lo =>
      simp only [issueStock, hfi, hfl, Option.isNone_some, Bool.false_eq_true,
        if_false] at h
      cases hcu : (customerGiven input.customer_id &&
          (db.customers.find? (fun c => c.id == input.customer_id.getD 0)).isNone) with
      | true => rw [hcu] at h; simp at h
      | false =>
        rw [hcu] at h
        simp only [Bool.false_eq_true, if_false] at h
        by_cases hlt : currentQuantity db.movements input.item_id input.location_id <
            input.quantity
        · rw [if_pos hlt] at h
          simp at h
        · rw [if_neg hlt] at h
          simp only [Except.ok.injEq, Prod.mk.injEq] at h
          obtain ⟨h1, h2⟩ := findItem_eq_some db _ it hfi
          refine ⟨⟨it, h1, h2⟩, ?_, ?_, ?_, ?_⟩
          · rw [← h.1]
          · rw [← h.1]
          · rw [← h.1, ← h.2]
          · rw [← h.2]
            rfl

theorem transferStock_ok_inv (db : DB) (input : TransferStockInput) (now : Nat)
    (db2 : DB) (out tin : StockMovement)
    (h : transferStock db input now = .ok (db2, out, tin)) :
    (∃ it ∈ db.items, it.id = input.item_id) ∧ db2.items = db.items ∧
    db2.boms = db.boms ∧ db2.movements = db.movements ++ [out, tin] ∧
    out.item_id = input.item_id ∧ tin.item_id = input.item_id := by
  cases hfi : findItem db input.item_id with
  | none =>
    simp only [transferStock, hfi, Option.isNone_none, if_true] at h
    simp at h
  | some it =>
    cases hfl : findLocation db input.from_location_id with
    | none =>
      simp only [transferStock, hfi, hfl, Option.isNone_some, Option.isNone_none,
        Bool.false_eq_true, if_false, if_true] at h
      simp at h
    | some lo1 =>
      cases hft : findLocation db input.to_location_id with
      | none =>
        simp only [transferStock, hfi, hfl, hft, Option.isNone_some, Option.isNone_none,
          Bool.false_eq_true, if_false, if_true] at h
        simp at h
      | some lo2 =>
        simp only [transferStock, hfi, hfl, hft, Option.isNone_some,
          Bool.false_eq_true, if_false] at h
        cases heq : (input.from_location_id == input.to_location_id) with
        | true => rw [heq] at h; simp at h
        | false =>
          rw [heq] at h
          simp only [Bool.false_eq_true, if_false] at h
          by_cases hlt : currentQuantity db.movements input.item_id
              input.from_location_id < input.quantity
          · rw [if_pos hlt] at h
            simp at h
          · rw [if_neg hlt] at h
            simp only [Except.ok.injEq, Prod.mk.injEq] at h
            obtain ⟨h1, h2⟩ := findItem_eq_some db _ it hfi
            refine ⟨⟨it, h1, h2⟩, ?_, ?_, ?_, ?_, ?_⟩
            · rw [← h.1]
            · rw [← h.1]
            · rw [← h.1, ← h.2.1, ← h.2.2]
            · rw [← h.2.1]
              rfl
            · rw [← h.2.2]
              rfl

theorem deleteItem_ok_inv (db : DB) (id : Nat) (db2 : DB)
    (h : deleteItem db id = .ok db2) :
    (∀ e ∈ db.boms, e.parent_item_id ≠ id ∧ e.component_item_id ≠ id) ∧
    (∀ m ∈ db.movements, m.item_id ≠ id) ∧
    db2.items = db.items.filter (fun it => it.id != id) ∧
    db2.boms = db.boms ∧ db2.movements = db.movements ∧
    db2.locations = db.locations ∧ db2.customers = db.customers := by
  cases hfi : findItem db id with
  | none =>
    simp only [deleteItem, hfi, Option.isNone_none, if_true] at h
    simp at h
  | some it =>
    simp only [deleteItem, hfi, Option.isNone_some, Bool.false_eq_true, if_false] at h
    cases hbe : (db.boms.filter (fun b =>
        b.parent_item_id == id || b.component_item_id == id)).isEmpty with
    | false => rw [hbe] at h; simp at h
    | true =>
      rw [hbe] at h
      simp only [Bool.not_true, Bool.false_eq_true, if_false] at h
      cases hme : (db.movements.filter (fun m => m.item_id == id)).isEmpty with
      | false => rw [hme] at h; simp at h
      | true =>
        rw [hme] at h
        simp only [Bool.not_true, Bool.false_eq_true, if_false, Except.ok.injEq] at h
        have hbno := pred_false_of_filter_isEmpty hbe
        have hmno := pred_false_of_filter_isEmpty hme
        refine ⟨?_, ?_, ?_, ?_, ?_, ?_, ?_⟩
        · intro e he
          have := hbno e he
          simp only [Bool.or_eq_false_iff, beq_eq_false_iff_ne, ne_eq] at this
          exact this
        · intro m hm
          have := hmno m hm
          simpa using this
        · rw [← h]
        · rw [← h]
        · rw [← h]
        · rw [← h]
        · rw [← h]

theorem updateBillOfMaterial_ok_inv (db : DB) (input : UpdateBomInput) (fuel : Nat)
    (db2 : DB) (edge : BomEdge)
    (h : updateBillOfMaterial db input fuel = some (.ok (db2, edge))) :
    ∃ currentBom ∈ db.boms, currentBom.id = input.id ∧
      db2.items = db.items ∧ db2.movements = db.movements ∧
      db2.boms = db.boms.map (fun b => if b.id == input.id then
        { b with
            parent_item_id := input.parent_item_id.getD currentBom.parent_item_id
            component_item_id := input.component_item_id.getD currentBom.component_item_id
            quantity := input.quantity.getD currentBom.quantity } else b) ∧
      ((input.parent_item_id.isSome = true ∨ input.component_item_id.isSome = true) →
        (db.items.filter (fun it => (updateItemIds input).contains it.id)).length =
          (updateItemIds input).length ∧
        input.parent_item_id.getD currentBom.parent_item_id ≠
          input.component_item_id.getD currentBom.component_item_id) := by
  cases hfb : db.boms.find? (fun b => b.id == input.id) with
  | none =>
    simp only [updateBillOfMaterial, hfb] at h
    simp at h
  | some currentBom =>
    simp only [updateBillOfMaterial, hfb] at h
    have hmem : currentBom ∈ db.boms := List.mem_of_find?_eq_some hfb
    have hid : currentBom.id = input.id := by simpa using List.find?_some hfb
    cases hs : (input.parent_item_id.isSome || input.component_item_id.isSome) with
    | false =>
      rw [hs] at h
      simp only [Bool.false_eq_true, if_false, applyBomUpdate, Option.some.injEq,
        Except.ok.injEq, Prod.mk.injEq] at h
      refine ⟨currentBom, hmem, hid, ?_, ?_, ?_, ?_⟩
      · rw [← h.1]
      · rw [← h.1]
      · rw [← h.1]
      · intro hor
        simp only [Bool.or_eq_false_iff] at hs
        rcases hor with hor | hor
        · rw [hs.1] at hor; exact absurd hor (by simp)
        · rw [hs.2] at hor; exact absurd hor (by simp)
    | true =>
      rw [hs] at h
      simp only [if_true] at h
      cases hpc : ((input.parent_item_id.getD currentBom.parent_item_id) ==
          (input.component_item_id.getD currentBom.component_item_id)) with
      | true => rw [hpc] at h; simp at h
      | false =>
        rw [hpc] at h
        simp only [Bool.false_eq_true, if_false] at h
        cases hcc : checkCircularDependency db.boms
            (input.parent_item_id.getD currentBom.parent_item_id) input.id fuel
            (input.component_item_id.getD currentBom.component_item_id) with
        | none => rw [hcc] at h; simp at h
        | some v =>
          cases v with
          | true => rw [hcc] at h; simp at h
          | false =>
            rw [hcc] at h
            simp only [] at h
            cases hlen : ((db.items.filter (fun it =>
                (updateItemIds input).contains it.id)).length !=
                (updateItemIds input).length) with
            | true => rw [hlen] at h; simp at h
            | false =>
              rw [hlen] at h
              simp only [Bool.false_eq_true, if_false, applyBomUpdate,
                Option.some.injEq, Except.ok.injEq, Prod.mk.injEq] at h
              refine ⟨currentBom, hmem, hid, ?_, ?_, ?_, ?_⟩
              · rw [← h.1]
              · rw [← h.1]
              · rw [← h.1]
              · intro _
                constructor
                · simpa using hlen
                · simpa using hpc

theorem integrity_applyOp (db : DB) (op : Op) (h : Integrity db) :
    Integrity (applyOp db op) := by
  obtain ⟨hnd, hmov, hbom⟩ := h
  cases op with
  | createBom input =>
    cases hr : createBillOfMaterial db input with
    | error e =>
      simp only [applyOp, hr]
      exact ⟨hnd, hmov, hbom⟩
    | ok p =>
      obtain ⟨db2, edge⟩ := p
      obtain ⟨hp, hc, hitems, hmovs, hboms, hep, hec⟩ :=
        createBillOfMaterial_ok_inv db input db2 edge hr
      simp only [applyOp, hr]
      refine ⟨?_, ?_, ?_⟩
      · rw [hitems]; exact hnd
      · intro m hm
        rw [hmovs] at hm
        rw [hitems]
        exact hmov m hm
      · intro e he
        rw [hboms] at he
        rw [hitems]
        rcases List.mem_append.mp he with he | he
        · exact hbom e he
        · have heq : e = edge := by simpa using he
          rw [heq, hep, hec]
          exact ⟨hp, hc⟩
  | updateBom input fuel =>
    cases hr : updateBillOfMaterial db input fuel with
    | none =>
      simp only [applyOp, hr]
      exact ⟨hnd, hmov, hbom⟩
    | some r =>
      cases r with
      | error e =>
        simp only [applyOp, hr]
        exact ⟨hnd, hmov, hbom⟩
      | ok p =>
        obtain ⟨db2, edge⟩ := p
        obtain ⟨currentBom, hcbmem, hcbid, hitems, hmovs, hboms, hvalid⟩ :=
          updateBillOfMaterial_ok_inv db input fuel db2 edge hr
        simp only [applyOp, hr]
        have hendpoint : ∀ x : Nat,
            (input.parent_item_id = some x ∨ input.component_item_id = some x) →
            ∃ it ∈ db.items, it.id = x := by
          intro x hx
          have hsome : input.parent_item_id.isSome = true ∨
              input.component_item_id.isSome = true := by
            rcases hx with hx | hx
            · exact Or.inl (by simp [hx])
            · exact Or.inr (by simp [hx])
          obtain ⟨hlen, hnepc⟩ := hvalid hsome
          have hidsnd : (updateItemIds input).Nodup := by
            unfold updateItemIds
            cases hip : input.parent_item_id with
            | none => cases hic : input.component_item_id <;> simp
            | some pp =>
              cases hic : input.component_item_id with
              | none => simp
              | some cc =>
                simp only [List.cons_append, List.nil_append]
                refine List.nodup_cons.mpr ⟨?_, List.nodup_singleton _⟩
                simp only [List.mem_singleton]
                intro hppcc
                rw [hip, hic] at hnepc
                simp only [Option.getD_some] at hnepc
                exact hnepc hppcc
          apply all_ids_present hnd hidsnd hlen
          unfold updateItemIds
          rcases hx with hx | hx
          · rw [hx]; simp
          · rw [hx]
            cases input.parent_item_id <;> simp
        refine ⟨?_, ?_, ?_⟩
        · rw [hitems]; exact hnd
        · intro m hm
          rw [hmovs] at hm
          rw [hitems]
          exact hmov m hm
        · intro e he
          rw [hitems]
          rw [hboms, List.mem_map] at he
          obtain ⟨b, hb, hbe⟩ := he
          cases hbid : (b.id == input.id) with
          | false =>
            rw [hbid] at hbe
            simp only [Bool.false_eq_true, if_false] at hbe
            rw [← hbe]
            exact hbom b hb
          | true =>
            rw [hbid] at hbe
            simp only [if_true] at hbe
            rw [← hbe]
            constructor
            · cases hip : input.parent_item_id with
              | none =>
                simp only [hip, Option.getD_none]
                exact (hbom currentBom hcbmem).1
              | some pp =>
                simp only [hip, Option.getD_some]
                exact hendpoint pp (Or.inl hip)
            · cases hic : input.component_item_id with
              | none =>
                simp only [hic, Option.getD_none]
                exact (hbom currentBom hcbmem).2
              | some cc =>
                simp only [hic, Option.getD_some]
                exact hendpoint cc (Or.inr hic)
  | issue input now =>
    cases hr : issueStock db input now with
    | error e =>
      simp only [applyOp, hr]
      exact ⟨hnd, hmov, hbom⟩
    | ok p =>
      obtain ⟨db2, m⟩ := p
      obtain ⟨hex, hitems, hboms, hmovs, hmid⟩ := issueStock_ok_inv db input now db2 m hr
      simp only [applyOp, hr]
      refine ⟨?_, ?_, ?_⟩
      · rw [hitems]; exact hnd
      · intro m2 hm2
        rw [hmovs] at hm2
        rw [hitems]
        rcases List.mem_append.mp hm2 with hm2 | hm2
        · exact hmov m2 hm2
        · have : m2 = m := by simpa using hm2
          rw [this, hmid]
          exact hex
      · intro e he
        rw [hboms] at he
        rw [hitems]
        exact hbom e he
  | transfer input now =>
    cases hr : transferStock db input now with
    | error e =>
      simp only [applyOp, hr]
      exact ⟨hnd, hmov, hbom⟩
    | ok p =>
      obtain ⟨db2, out, tin⟩ := p
      obtain ⟨hex, hitems, hboms, hmovs, hoid, htid⟩ :=
        transferStock_ok_inv db input now db2 out tin hr
      simp only [applyOp, hr]
      refine ⟨?_, ?_, ?_⟩
      · rw [hitems]; exact hnd
      · intro m2 hm2
        rw [hmovs] at hm2
        rw [hitems]
        rcases List.mem_append.mp hm2 with hm2 | hm2
        · exact hmov m2 hm2
        · rcases List.mem_cons.mp hm2 with hm2 | hm2
          · rw [hm2, hoid]; exact hex
          · have : m2 = tin := by simpa using hm2
            rw [this, htid]; exact hex
      · intro e he
        rw [hboms] at he
        rw [hitems]
        exact hbom e he
  | produce input now =>
    cases hr : produceItem db input now with
    | error e =>
      simp only [applyOp, hr]
      exact ⟨hnd, hmov, hbom⟩
    | ok p =>
      obtain ⟨db2, ms⟩ := p
      obtain ⟨item, hfi, _, _, _, hms, hmovs, hitems, hboms⟩ :=
        produceItem_cases db input now db2 ms hr
      simp only [applyOp, hr]
      obtain ⟨hit1, hit2⟩ := findItem_eq_some db _ item hfi
      refine ⟨?_, ?_, ?_⟩
      · rw [hitems]; exact hnd
      · intro m2 hm2
        rw [hmovs] at hm2
        rw [hitems]
        rcases List.mem_append.mp hm2 with hm2 | hm2
        · exact hmov m2 hm2
        · rw [hms] at hm2
          rcases List.mem_cons.mp hm2 with hm2 | hm2
          · rw [hm2]
            exact ⟨item, hit1, hit2⟩
          · rw [consumptionMovements, List.mem_map] at hm2
            obtain ⟨q, hq, hqe⟩ := hm2
            have hq2 : q.2 ∈ requiredComponentsFor (bomComponentsFor db input.item_id)
                input.quantity := by
              rw [List.enum] at hq
              exact mem_enumFrom_snd hq
            rw [requiredComponentsFor, List.mem_map] at hq2
            obtain ⟨c, hcm, hce⟩ := hq2
            obtain ⟨it3, hit3, hid3⟩ := bomComponentsFor_mem db input.item_id c hcm
            refine ⟨it3, hit3, ?_⟩
            rw [← hqe]
            show it3.id = q.2.item_id
            rw [← hce]
            exact hid3
      · intro e he
        rw [hboms] at he
        rw [hitems]
        exact hbom e he
  | deleteIt id =>
    cases hr : deleteItem db id with
    | error e =>
      simp only [applyOp, hr]
      exact ⟨hnd, hmov, hbom⟩
    | ok db2 =>
      obtain ⟨hbno, hmno, hitems, hboms, hmovs, _, _⟩ := deleteItem_ok_inv db id db2 hr
      simp only [applyOp, hr]
      have hkeep : ∀ x, x ≠ id → (∃ it ∈ db.items, it.id = x) →
          ∃ it ∈ db2.items, it.id = x := by
        intro x hx ⟨it, hit, hid2⟩
        refine ⟨it, ?_, hid2⟩
        rw [hitems, List.mem_filter]
        refine ⟨hit, ?_⟩
        simp only [bne_iff_ne, ne_eq]
        rw [hid2]
        exact hx
      refine ⟨?_, ?_, ?_⟩
      · rw [hitems]
        exact hnd.sublist ((List.filter_sublist db.items).map _)
      · intro m hm
        rw [hmovs] at hm
        exact hkeep m.item_id (hmno m hm) (hmov m hm)
      · intro e he
        rw [hboms] at he
        exact ⟨hkeep e.parent_item_id (hbom e he |>.1 |> fun hh => (hbno e he).1) (hbom e he).1,
          hkeep e.component_item_id ((hbno e he).2) (hbom e he).2⟩

/-- C10: deleteItem refuses (with no state change) whenever any BOM edge
or stock movement references the item, deletes exactly the unreferenced
item row otherwise, and every modelled operation preserves referential
integrity: stored movements and BOM edge endpoints always refer to
existing item rows. -/
theorem C10_delete_item_guard (db : DB) (id : Nat) (op : Op) :
    (((∃ e ∈ db.boms, e.parent_item_id = id ∨ e.component_item_id = id) ∨
      (∃ m ∈ db.movements, m.item_id = id)) →
      (∃ err, deleteItem db id = .error err) ∧ applyOp db (.deleteIt id) = db) ∧
    (∀ db2, deleteItem db id = .ok db2 →
      (∀ e ∈ db.boms, e.parent_item_id ≠ id ∧ e.component_item_id ≠ id) ∧
      (∀ m ∈ db.movements, m.item_id ≠ id) ∧
      db2.items = db.items.filter (fun it => it.id != id) ∧
      db2.boms = db.boms ∧ db2.movements = db.movements ∧
      db2.locations = db.locations ∧ db2.customers = db.customers) ∧
    (Integrity db → Integrity (applyOp db op)) := by
  refine ⟨?_, ?_, fun hint => integrity_applyOp db op hint⟩
  · intro href
    cases hfi : findItem db id with
    | none =>
      have herr : deleteItem db id = .error (.itemNotFound id) := by
        simp [deleteItem, hfi]
      exact ⟨⟨_, herr⟩, by simp [applyOp, herr]⟩
    | some it =>
      cases hbe : (db.boms.filter (fun b =>
          b.parent_item_id == id || b.component_item_id == id)).isEmpty with
      | false =>
        have herr : deleteItem db id = .error .itemReferencedByBom := by
          simp only [deleteItem, hfi, Option.isNone_some, Bool.false_eq_true, if_false,
            hbe, Bool.not_false, if_true]
        exact ⟨⟨_, herr⟩, by simp [applyOp, herr]⟩
      | true =>
        have hbno := pred_false_of_filter_isEmpty hbe
        rcases href with ⟨e, he, hor⟩ | ⟨m, hm, hmid⟩
        · have := hbno e he
          simp only [Bool.or_eq_false_iff, beq_eq_false_iff_ne, ne_eq] at this
          rcases hor with hor | hor
          · exact absurd hor this.1
          · exact absurd hor this.2
        · have hme : (db.movements.filter (fun m2 => m2.item_id == id)).isEmpty = false :=
            filter_isEmpty_false_of_mem _ _ m hm (by simp [hmid])
          have herr : deleteItem db id = .error .itemReferencedByMovement := by
            simp only [deleteItem, hfi, Option.isNone_some, Bool.false_eq_true, if_false,
              hbe, Bool.not_true, hme, Bool.not_false, if_true]
          exact ⟨⟨_, herr⟩, by simp [applyOp, herr]⟩
  · intro db2 hok
    exact deleteItem_ok_inv db id db2 hok

/-- Witness state for C10: item 1 is referenced by the BOM edge (1, 2). -/
def deleteWDb : DB :=
  ⟨[⟨1, "A", "SKA", false, 0, "ea"⟩, ⟨2, "B", "SKB", false, 0, "ea"⟩], [], [],
    [⟨1, 1, 2, 1⟩], [], 1, 2⟩

theorem C10_delete_item_guard_witness :
    (∃ err, deleteItem deleteWDb 1 = .error err) ∧
    applyOp deleteWDb (.deleteIt 1) = deleteWDb :=
  (C10_delete_item_guard deleteWDb 1 (.deleteIt 1)).1
    (Or.inl ⟨⟨1, 1, 2, 1⟩, by decide, Or.inl rfl⟩)

/-! C8: derived stock levels. -/

/-- The filter conditions of getStockLevels as a function of the group
key alone (rowMatchesFilters only reads the joined item and location
ids). -/
def keyPasses (itF lF : Option Nat) (i l : Nat) : Bool :=
  (match itF with | some x => i == x | none => true) &&
  (match lF with | some y => l == y | none => true)

theorem rowMatchesFilters_eq_keyPasses (itF lF : Option Nat)
    (r : StockMovement × Item × Location) :
    rowMatchesFilters itF lF r = keyPasses itF lF r.2.1.id r.2.2.id := rfl

theorem joinedMovementRows_mem_inv (db : DB) (r : StockMovement × Item × Location)
    (h : r ∈ joinedMovementRows db) :
    r.1 ∈ db.movements ∧ findItem db r.1.item_id = some r.2.1 ∧
    findLocation db r.1.location_id = some r.2.2 ∧
    r.2.1.id = r.1.item_id ∧ r.2.2.id = r.1.location_id := by
  unfold joinedMovementRows at h
  rw [List.mem_filterMap] at h
  obtain ⟨m, hm, hmap⟩ := h
  unfold joinRow at hmap
  cases hfi : findItem db m.item_id with
  | none => rw [hfi] at hmap; simp at hmap
  | some it =>
    cases hfl : findLocation db m.location_id with
    | none => rw [hfi, hfl] at hmap; simp at hmap
    | some lo =>
      rw [hfi, hfl] at hmap
      simp only [Option.some.injEq] at hmap
      rw [← hmap]
      exact ⟨hm, hfi, hfl, (findItem_eq_some db _ it hfi).2,
        (findLocation_eq_some db _ lo hfl).2⟩

theorem joinedMovementRows_mem_of (db : DB) (m : StockMovement) (it : Item)
    (lo : Location) (hm : m ∈ db.movements) (hfi : findItem db m.item_id = some it)
    (hfl : findLocation db m.location_id = some lo) :
    (m, it, lo) ∈ joinedMovementRows db := by
  unfold joinedMovementRows
  rw [List.mem_filterMap]
  exact ⟨m, hm, by unfold joinRow; rw [hfi, hfl]⟩

theorem joined_filter_quantity (db : DB) (itF lF : Option Nat) (i l : Nat)
    (it0 : Item) (lo0 : Location)
    (hitem : findItem db i = some it0) (hloc : findLocation db l = some lo0)
    (hpass : keyPasses itF lF i l = true) :
    ∀ ms : List StockMovement,
      ((ms.filterMap (joinRow db)).filter (fun r => rowMatchesFilters itF lF r &&
            (r.2.1.id == i && r.2.2.id == l))).map (fun r => r.1.quantity) =
      (ms.filter (fun m => m.item_id == i && m.location_id == l)).map
        (fun m => m.quantity) := by
  obtain ⟨hit0, hid0⟩ := findItem_eq_some db i it0 hitem
  obtain ⟨hlo0, hlid0⟩ := findLocation_eq_some db l lo0 hloc
  intro ms
  induction ms with
  | nil => rfl
  | cons m rest ih =>
    by_cases hkey : m.item_id = i ∧ m.location_id = l
    · have hjm : joinRow db m = some (m, it0, lo0) := by
        unfold joinRow
        rw [hkey.1, hkey.2, hitem, hloc]
      have hcond : (rowMatchesFilters itF lF (m, it0, lo0) &&
          ((m, it0, lo0).2.1.id == i && (m, it0, lo0).2.2.id == l)) = true := by
        show (keyPasses itF lF it0.id lo0.id && (it0.id == i && lo0.id == l)) = true
        rw [hid0, hlid0, hpass]
        simp
      have hcond2 : (m.item_id == i && m.location_id == l) = true := by
        simp [hkey.1, hkey.2]
      rw [List.filterMap_cons_some hjm]
      simp only [List.filter_cons, hcond, hcond2, if_true, List.map_cons]
      rw [ih]
    · have hcond2 : (m.item_id == i && m.location_id == l) = false := by
        by_cases h1 : m.item_id = i
        · have h2 : m.location_id ≠ l := fun h2 => hkey ⟨h1, h2⟩
          simp [h2]
        · simp [h1]
      cases hj : joinRow db m with
      | none =>
        rw [List.filterMap_cons_none hj]
        simp only [List.filter_cons, hcond2, Bool.false_eq_true, if_false]
        rw [ih]
      | some r =>
        have hr : r.2.1.id = m.item_id ∧ r.2.2.id = m.location_id := by
          unfold joinRow at hj
          cases hfi : findItem db m.item_id with
          | none => rw [hfi] at hj; simp at hj
          | some it =>
            cases hfl : findLocation db m.location_id with
            | none => rw [hfi, hfl] at hj; simp at hj
            | some lo =>
              rw [hfi, hfl] at hj
              simp only [Option.some.injEq] at hj
              rw [← hj]
              exact ⟨(findItem_eq_some db _ it hfi).2, (findLocation_eq_some db _ lo hfl).2⟩
        have hcondr : (rowMatchesFilters itF lF r &&
            (r.2.1.id == i && r.2.2.id == l)) = false := by
          rw [hr.1, hr.2, hcond2]
          simp
        rw [List.filterMap_cons_some hj]
        simp only [List.filter_cons, hcondr, hcond2, Bool.false_eq_true, if_false]
        rw [ih]

theorem filterMap_sublist_of_id {α : Type} {f : α → Option α}
    (hf : ∀ a b, f a = some b → b = a) :
    ∀ l : List α, (l.filterMap f).Sublist l := by
  intro l
  induction l with
  | nil => simp
  | cons a t ih =>
    rw [List.filterMap_cons]
    cases hfa : f a with
    | none => exact ih.cons a
    | some b =>
      rw [hf a b hfa]
      exact ih.cons₂ a

theorem getStockLevels_mem_inv (db : DB) (itF lF : Option Nat) (row : StockLevel)
    (hrow : row ∈ getStockLevels db itF lF) :
    ∃ r0 ∈ (joinedMovementRows db).filter (rowMatchesFilters itF lF),
      row.item_id = r0.2.1.id ∧ row.location_id = r0.2.2.id ∧
      row.reorder_level = r0.2.1.reorder_level ∧
      row.current_quantity = ((((joinedMovementRows db).filter
        (rowMatchesFilters itF lF)).filter (fun r =>
          r.2.1.id == row.item_id && r.2.2.id == row.location_id)).map
            (fun r => r.1.quantity)).sum := by
  unfold getStockLevels at hrow
  rw [List.mem_filterMap] at hrow
  obtain ⟨k, _, hFk⟩ := hrow
  rw [Option.map_eq_some'] at hFk
  obtain ⟨r0, hfind, hbuild⟩ := hFk
  have hr0mem := List.mem_of_find?_eq_some hfind
  have hpk := List.find?_some hfind
  simp only [Bool.and_eq_true, beq_iff_eq] at hpk
  refine ⟨r0, hr0mem, ?_, ?_, ?_, ?_⟩
  · rw [← hbuild, stockLevelRow]
  · rw [← hbuild, stockLevelRow]
  · rw [← hbuild, stockLevelRow]
  · rw [← hbuild]
    show (stockLevelRow _ k r0).current_quantity = _
    rw [show (stockLevelRow ((joinedMovementRows db).filter (rowMatchesFilters itF lF))
      k r0).item_id = r0.2.1.id from rfl]
    rw [show (stockLevelRow ((joinedMovementRows db).filter (rowMatchesFilters itF lF))
      k r0).location_id = r0.2.2.id from rfl]
    rw [stockLevelRow, hpk.1, hpk.2]

/-- C8: getStockLevels reports, under the optional item/location filter,
exactly one row per (item, location) pair holding at least one movement
(with existing item and location rows): each row's current_quantity is
the sum of that pair's movement quantities, it carries the item's
reorder level so the client's below-reorder indicator holds exactly when
current quantity ≤ reorder level, rows respect the filters, and no pair
is reported twice. -/
theorem C8_stock_levels (db : DB) (itF lF : Option Nat) :
    (∀ row ∈ getStockLevels db itF lF,
      (∃ m ∈ db.movements, m.item_id = row.item_id ∧ m.location_id = row.location_id) ∧
      row.current_quantity = currentQuantity db.movements row.item_id row.location_id ∧
      (∃ it ∈ db.items, it.id = row.item_id ∧ row.reorder_level = it.reorder_level) ∧
      (belowReorderLevel row = true ↔
        currentQuantity db.movements row.item_id row.location_id ≤ row.reorder_level) ∧
      (∀ x, itF = some x → row.item_id = x) ∧
      (∀ y, lF = some y → row.location_id = y)) ∧
    (∀ m ∈ db.movements,
      (∃ it ∈ db.items, it.id = m.item_id) →
      (∃ lo ∈ db.locations, lo.id = m.location_id) →
      keyPasses itF lF m.item_id m.location_id = true →
      ∃ row ∈ getStockLevels db itF lF,
        row.item_id = m.item_id ∧ row.location_id = m.location_id) ∧
    ((getStockLevels db itF lF).map (fun r => (r.item_id, r.location_id))).Nodup := by
  refine ⟨?_, ?_, ?_⟩
  · intro row hrow
    obtain ⟨r0, hr0, hritem, hrloc, hrre, hrq⟩ :=
      getStockLevels_mem_inv db itF lF row hrow
    rw [List.mem_filter] at hr0
    obtain ⟨hr0j, hr0f⟩ := hr0
    obtain ⟨hr0m, hr0fi, hr0fl, hr0iid, hr0lid⟩ := joinedMovementRows_mem_inv db r0 hr0j
    have hfi2 : findItem db row.item_id = some r0.2.1 := by
      rw [hritem, hr0iid]
      exact hr0fi
    have hfl2 : findLocation db row.location_id = some r0.2.2 := by
      rw [hrloc, hr0lid]
      exact hr0fl
    have hpass : keyPasses itF lF row.item_id row.location_id = true := by
      rw [hritem, hrloc, ← rowMatchesFilters_eq_keyPasses]
      exact hr0f
    have hq : row.current_quantity =
        currentQuantity db.movements row.item_id row.location_id := by
      rw [hrq, List.filter_filter]
      have hmain := joined_filter_quantity db itF lF row.item_id row.location_id
        r0.2.1 r0.2.2 hfi2 hfl2 hpass db.movements
      unfold joinedMovementRows
      unfold currentQuantity
      rw [show List.filter (fun a : StockMovement × Item × Location =>
          a.2.1.id == row.item_id && a.2.2.id == row.location_id &&
            rowMatchesFilters itF lF a)
          (List.filterMap (joinRow db) db.movements) =
        List.filter (fun r : StockMovement × Item × Location =>
          rowMatchesFilters itF lF r &&
            (r.2.1.id == row.item_id && r.2.2.id == row.location_id))
          (List.filterMap (joinRow db) db.movements) from
        List.filter_congr (fun a _ => by
          cases hx : (a.2.1.id == row.item_id) <;>
            cases hy : (a.2.2.id == row.location_id) <;>
              cases hz : rowMatchesFilters itF lF a <;> rfl),
        hmain]
    refine ⟨?_, hq, ?_, ?_, ?_, ?_⟩
    · refine ⟨r0.1, hr0m, ?_, ?_⟩
      · rw [hritem, hr0iid]
      · rw [hrloc, hr0lid]
    · exact ⟨r0.2.1, (findItem_eq_some db _ r0.2.1 hfi2).1,
        (findItem_eq_some db _ r0.2.1 hfi2).2, hrre⟩
    · rw [belowReorderLevel, ← hq]
      exact decide_eq_true_iff
    · intro x hx
      rw [hx] at hpass
      simp only [keyPasses, Bool.and_eq_true, beq_iff_eq] at hpass
      exact hpass.1
    · intro y hy
      rw [hy] at hpass
      simp only [keyPasses, Bool.and_eq_true, beq_iff_eq] at hpass
      exact hpass.2
  · intro m hm hitex hloex hpass
    obtain ⟨it0, hfi0⟩ := Option.isSome_iff_exists.mp
      ((findItem_isSome_iff db m.item_id).mpr hitex)
    obtain ⟨lo0, hfl0⟩ := Option.isSome_iff_exists.mp
      ((findLocation_isSome_iff db m.location_id).mpr hloex)
    have hjoin : (m, it0, lo0) ∈ joinedMovementRows db :=
      joinedMovementRows_mem_of db m it0 lo0 hm hfi0 hfl0
    have hids : it0.id = m.item_id ∧ lo0.id = m.location_id :=
      ⟨(findItem_eq_some db _ it0 hfi0).2, (findLocation_eq_some db _ lo0 hfl0).2⟩
    have hrf : rowMatchesFilters itF lF (m, it0, lo0) = true := by
      rw [rowMatchesFilters_eq_keyPasses]
      show keyPasses itF lF it0.id lo0.id = true
      rw [hids.1, hids.2]
      exact hpass
    have hrows : (m, it0, lo0) ∈
        (joinedMovementRows db).filter (rowMatchesFilters itF lF) :=
      List.mem_filter.mpr ⟨hjoin, hrf⟩
    have hdedup : (m.item_id, m.location_id) ∈
        (((joinedMovementRows db).filter (rowMatchesFilters itF lF)).map
          (fun r => (r.2.1.id, r.2.2.id))).dedup := by
      rw [List.mem_dedup, List.mem_map]
      exact ⟨(m, it0, lo0), hrows, by simp [hids.1, hids.2]⟩
    have hfindsome : (((joinedMovementRows db).filter
        (rowMatchesFilters itF lF)).find? (fun r =>
          r.2.1.id == m.item_id && r.2.2.id == m.location_id)).isSome = true := by
      rw [List.find?_isSome]
      exact ⟨(m, it0, lo0), hrows, by simp [hids.1, hids.2]⟩
    obtain ⟨r0, hr0⟩ := Option.isSome_iff_exists.mp hfindsome
    have hpk := List.find?_some hr0
    simp only [Bool.and_eq_true, beq_iff_eq] at hpk
    refine ⟨stockLevelRow ((joinedMovementRows db).filter (rowMatchesFilters itF lF))
      (m.item_id, m.location_id) r0, ?_, hpk.1, hpk.2⟩
    unfold getStockLevels
    rw [List.mem_filterMap]
    refine ⟨(m.item_id, m.location_id), hdedup, ?_⟩
    rw [hr0]
    rfl
  · unfold getStockLevels
    rw [List.map_filterMap]
    have hnd := List.nodup_dedup (((joinedMovementRows db).filter
      (rowMatchesFilters itF lF)).map (fun r => (r.2.1.id, r.2.2.id)))
    refine List.Nodup.sublist (filterMap_sublist_of_id ?_ _) hnd
    intro k y h
    rw [Option.map_map, Option.map_eq_some'] at h
    obtain ⟨r0, hfind, hy⟩ := h
    have hpk := List.find?_some hfind
    simp only [Bool.and_eq_true, beq_iff_eq] at hpk
    rw [← hy]
    show (r0.2.1.id, r0.2.2.id) = k
    rw [hpk.1, hpk.2]

/-- Witness state for C8: one Receipt of 7 units of item 2 at
location 1. -/
def stockWDb : DB :=
  ⟨[⟨2, "B", "SKB", false, 10, "ea"⟩], [⟨1, "L1"⟩], [], [],
    [⟨1, 2, 1, .receipt, 7, 0, none⟩], 2, 1⟩

theorem C8_stock_levels_witness :
    ∃ row ∈ getStockLevels stockWDb none none,
      row.item_id = 2 ∧ row.location_id = 1 :=
  (C8_stock_levels stockWDb none none).2.1 ⟨1, 2, 1, .receipt, 7, 0, none⟩
    (by decide) (by decide) (by decide) (by decide)

end Erp
